import Mathlib

/-!
Verification of the OBD-II Diagnostic Summarisation Pipeline
(`obd_agent`: log parser, time-series normaliser, statistics extractor,
anomaly detector, clue generator).

The Python sources are shallowly embedded in Lean:

* Python floats are modelled as exact rationals (`ℚ`); calls into numeric
  library routines whose results are not rational (`sqrt`, `log2`) and
  external ML library calls (`ruptures.Pelt.predict`,
  `IsolationForest.fit_predict` / `decision_function`) are passed in as
  explicit function parameters ("oracles"), because every claim proved
  here holds for arbitrary values of those library outputs.
* Python `datetime` values are modelled by their POSIX timestamp in
  seconds (`ℚ`); `datetime.strptime` on the `Timestamp` cell is modelled
  by a `Option ℚ` field on the row (`none` = `ValueError`).
* `None`/`NaN` cells are `Option ℚ` with `none`.
* Python dict-based records become structures; `dict.get` with a default
  becomes `Option.getD`.
-/

namespace Obd

/-! ### Generic list helpers

`dedupFirst` removes duplicates keeping the first occurrence of each
element, which is the semantics of the `seen`-set loops in
`log_parser.row_to_snapshot`, `time_series_normalizer._extract_metadata`
and of `dict.fromkeys` in `anomaly_detector._merge_overlapping_events`. -/

/-- Remove duplicates, keeping first occurrences, skipping elements of `seen`. -/
def dedupFirstFrom [DecidableEq α] (seen : List α) : List α → List α
  | [] => []
  | x :: xs => if x ∈ seen then dedupFirstFrom seen xs
               else x :: dedupFirstFrom (x :: seen) xs

/-- Remove duplicates from a list, keeping the first occurrence of each element. -/
def dedupFirst [DecidableEq α] (l : List α) : List α := dedupFirstFrom [] l


/-- Embedding of Python `str.upper` (the DTC code strings are ASCII). -/
def upper (s : String) : String := ⟨s.data.map Char.toUpper⟩

/-! ### `log_parser` DTC machinery

Source: `src/obd_agent/log_parser.py`.
`_DTC_CODE_RE = re.compile(r"[PCBU][0-9A-Fa-f]{4}")` is used both with
`findall` (salvage path of `_parse_dtc_list`) and with `fullmatch`
(validation in `row_to_snapshot`). -/

/-- Character class `[PCBU]`. -/
def isDtcLetter (c : Char) : Bool := c = 'P' || c = 'C' || c = 'B' || c = 'U'

/-- Character class `[0-9A-Fa-f]` (stated on code points for arithmetic). -/
def isHexDigitPy (c : Char) : Bool :=
  (48 ≤ c.toNat && c.toNat ≤ 57) || (65 ≤ c.toNat && c.toNat ≤ 70)
    || (97 ≤ c.toNat && c.toNat ≤ 102)

/-- Character class `[0-9A-F]` of the spec's validation regex. -/
def isHexUpperDigit (c : Char) : Bool :=
  (48 ≤ c.toNat && c.toNat ≤ 57) || (65 ≤ c.toNat && c.toNat ≤ 70)

/-- List-of-characters form of `_DTC_CODE_RE.fullmatch`. -/
def dtcFullmatchL : List Char → Bool
  | [a, b, c, d, e] =>
    isDtcLetter a && isHexDigitPy b && isHexDigitPy c && isHexDigitPy d && isHexDigitPy e
  | _ => false

/-- `_DTC_CODE_RE.fullmatch(s)`: the whole string matches `[PCBU][0-9A-Fa-f]{4}`. -/
def dtcFullmatch (s : String) : Bool := dtcFullmatchL s.data

/-- List-of-characters form of the claim's regex. -/
def specDtcRegexL : List Char → Bool
  | [a, b, c, d, e] =>
    isDtcLetter a && isHexUpperDigit b && isHexUpperDigit c && isHexUpperDigit d
      && isHexUpperDigit e
  | _ => false

/-- The claim's regex `^[PCBU][0-9A-F]{4}$`. -/
def specDtcRegex (s : String) : Bool := specDtcRegexL s.data

/-- `_DTC_CODE_RE.findall`: left-to-right, non-overlapping matches; on a
failed match the scan advances one character. -/
def dtcFindallAux : List Char → List String
  | c :: d1 :: d2 :: d3 :: d4 :: rest2 =>
    if isDtcLetter c && isHexDigitPy d1 && isHexDigitPy d2 && isHexDigitPy d3
        && isHexDigitPy d4 then
      String.mk [c, d1, d2, d3, d4] :: dtcFindallAux rest2
    else dtcFindallAux (d1 :: d2 :: d3 :: d4 :: rest2)
  | _ => []

/-- `_DTC_CODE_RE.findall(s)`. -/
def dtcFindall (s : String) : List String := dtcFindallAux s.data

/-! #### Restricted `ast.literal_eval`

`_parse_dtc_list` feeds the raw cell to `ast.literal_eval` and keeps the
result when it is a list (of 2-tuples).  We embed the grammar actually
produced by python-OBD logs — a Python list of 2-tuples of quoted strings
without escape sequences, e.g. `[('P0301', 'Cylinder 1 Misfire')]`.
On cells in this grammar the parser below agrees with `ast.literal_eval`;
cells accepted by `literal_eval` but outside the grammar (escapes,
non-string atoms, nesting) are outside the model's domain and fall to the
regex-salvage branch here. -/

/-- Single-quote, double-quote and backslash characters. -/
def squote : Char := Char.ofNat 39

def dquote : Char := Char.ofNat 34

def backslashChar : Char := Char.ofNat 92

/-- Whitespace skipping between literal tokens. -/
def skipWs (cs : List Char) : List Char := cs.dropWhile Char.isWhitespace

/-- Python `str.strip()` (ASCII whitespace), stated over the character list
so that it evaluates by kernel reduction. -/
def pyStrip (s : String) : String :=
  ⟨((s.data.dropWhile Char.isWhitespace).reverse.dropWhile Char.isWhitespace).reverse⟩

/-- Scan the body of a quoted string up to the closing quote `q`. -/
def scanQuoted (q : Char) : List Char → Option (List Char × List Char)
  | [] => none
  | c :: rest =>
    if c = q then some ([], rest)
    else if c = backslashChar then none
    else match scanQuoted q rest with
      | some (content, rem) => some (c :: content, rem)
      | none => none

/-- Parse a quoted Python string literal. -/
def parseStrLit : List Char → Option (String × List Char)
  | [] => none
  | q :: rest =>
    if q = squote || q = dquote then
      match scanQuoted q rest with
      | some (content, rem) => some (String.mk content, rem)
      | none => none
    else none

/-- Parse one `('CODE', 'desc')` tuple. -/
def parsePyPair (cs : List Char) : Option ((String × String) × List Char) :=
  match skipWs cs with
  | '(' :: r1 =>
    match parseStrLit (skipWs r1) with
    | some (s1, r2) =>
      match skipWs r2 with
      | ',' :: r3 =>
        match parseStrLit (skipWs r3) with
        | some (s2, r4) =>
          match skipWs r4 with
          | ')' :: r5 => some ((s1, s2), r5)
          | _ => none
        | none => none
      | _ => none
    | none => none
  | _ => none

/-- Parse the comma-separated tuples after `[`, up to and including `]`. -/
def parsePyPairsAux : ℕ → List Char → Option (List (String × String) × List Char)
  | 0, _ => none
  | fuel + 1, cs =>
    match parsePyPair cs with
    | none => none
    | some (p, rest) =>
      match skipWs rest with
      | ']' :: r => some ([p], r)
      | ',' :: r2 =>
        match skipWs r2 with
        | ']' :: r3 => some ([p], r3)
        | r3 =>
          match parsePyPairsAux fuel r3 with
          | some (ps, r4) => some (p :: ps, r4)
          | none => none
      | _ => none

/-- `ast.literal_eval` on a Python list-of-string-2-tuples literal. -/
def parsePyPairList (s : String) : Option (List (String × String)) :=
  match skipWs s.data with
  | '[' :: r =>
    match skipWs r with
    | ']' :: r2 => if skipWs r2 = [] then some [] else none
    | r2 =>
      match parsePyPairsAux (r2.length + 1) r2 with
      | some (ps, rem) => if skipWs rem = [] then some ps else none
      | none => none
  | _ => none

/-- Embedding of `log_parser._parse_dtc_list` (lines 139–158): strip the
cell; `[]`, `N/A` and the empty string give no codes; a parseable
list-of-tuples literal gives its tuples verbatim; otherwise codes are
salvaged with `_DTC_CODE_RE.findall` and upper-cased with empty
descriptions. -/
def parseDtcList (raw : String) : List (String × String) :=
  let r := pyStrip raw
  if r = "[]" || r = "N/A" || r = "" then []
  else
    match parsePyPairList r with
    | some ps => ps
    | none => (dtcFindall r).map (fun c => (upper c, ""))

/-! ### Log rows

A parsed log row is a `Dict[str, str]`.  Only the claim-relevant cells are
modelled.  `datetime.strptime(ts_raw, "%Y-%m-%d %H:%M:%S")` is abstracted:
the `timestamp` field holds `some t` (POSIX seconds) when the cell parses
and `none` when `strptime` raises `ValueError`.  `getDtc`/`getCurrentDtc`
are `none` when the column is absent (`row.get(col, "[]")` supplies the
`"[]"` default). -/

structure Row where
  timestamp : Option ℚ := none
  getDtc : Option String := none
  getCurrentDtc : Option String := none
deriving DecidableEq

/-- The upper-cased codes contributed by one row in `_extract_metadata`'s
loop order: `GET_DTC` cell first, then `GET_CURRENT_DTC`. -/
def rowDtcStream (row : Row) : List String :=
  (parseDtcList (row.getDtc.getD "[]") ++ parseDtcList (row.getCurrentDtc.getD "[]")).map
    (fun p => upper p.1)

/-- All upper-cased codes of all rows, in encounter order. -/
def dtcStream (rows : List Row) : List String := rows.flatMap rowDtcStream

/-- Embedding of the DTC part of `time_series_normalizer._extract_metadata`
(lines 236–246): the `seen`-set loop keeps the first occurrence of every
upper-cased code, i.e. `dedupFirst` of the code stream. -/
def extractDtcCodes (rows : List Row) : List String := dedupFirst (dtcStream rows)

/-- The `seen_codes` loop of `log_parser.row_to_snapshot` (lines 212–218):
keep a tuple when its (already upper-cased) code is new *and* passes
`_DTC_CODE_RE.fullmatch`. -/
def snapshotDtcSelect (seen : List String) : List (String × String) → List (String × String)
  | [] => []
  | (code, desc) :: rest =>
    if code ∉ seen ∧ dtcFullmatch code then
      (code, desc) :: snapshotDtcSelect (code :: seen) rest
    else snapshotDtcSelect seen rest

/-- Embedding of the DTC entries built by `log_parser.row_to_snapshot`
(lines 208–218): `GET_DTC` tuples then `GET_CURRENT_DTC` tuples, codes
upper-cased, deduplicated and regex-validated. -/
def snapshotDtcEntries (row : Row) : List (String × String) :=
  let tuples :=
    parseDtcList (row.getDtc.getD "[]") ++ parseDtcList (row.getCurrentDtc.getD "[]")
  snapshotDtcSelect [] (tuples.map (fun p => (upper p.1, p.2)))

/-- Concrete row for the C1 witness. -/
def c1WitnessRow : Row := { getDtc := some "[(\"P0301\", \"Misfire\")]" }

/-! ### `anomaly_detector._compute_severity`

Source: `src/obd_agent/anomaly_detector.py`, lines 217–245.  The four
components are combined with weights 0.40 / 0.25 / 0.15 / 0.20, the
composite is clipped to `[0, 1]` and compared against the thresholds
`_SEVERITY_THRESHOLDS = (0.33, 0.66)`. -/

/-- Thresholds `_SEVERITY_THRESHOLDS` from `anomaly_detector.py`. -/
def severityThresholds : ℚ × ℚ := (0.33, 0.66)

/-- Embedding of `_compute_severity(n_signals, score, duration_seconds, has_critical)`. -/
def computeSeverity (nSignals : ℕ) (score durationSeconds : ℚ)
    (hasCritical : Bool) : String :=
  let scoreNorm : ℚ := max 0 (min 1 score)
  let signalNorm : ℚ := min 1 ((nSignals : ℚ) / 8)
  let durationNorm : ℚ := min 1 (durationSeconds / 300)
  let criticalNorm : ℚ := if hasCritical then 1 else 0
  let composite₀ : ℚ :=
    0.40 * scoreNorm + 0.25 * signalNorm + 0.15 * durationNorm + 0.20 * criticalNorm
  let composite : ℚ := max 0 (min 1 composite₀)
  if composite ≥ severityThresholds.2 then "high"
  else if composite ≥ severityThresholds.1 then "medium"
  else "low"

/-- The pre-clip composite of `_compute_severity`: the weighted sum of the
four normalised components, before `np.clip(composite, 0.0, 1.0)`. -/
def compositeRaw (nSignals : ℕ) (score durationSeconds : ℚ)
    (hasCritical : Bool) : ℚ :=
  0.40 * (max 0 (min 1 score)) + 0.25 * (min 1 ((nSignals : ℚ) / 8))
    + 0.15 * (min 1 (durationSeconds / 300)) + 0.20 * (if hasCritical then 1 else 0)

/-! ### `time_series_normalizer`

Source: `src/obd_agent/time_series_normalizer.py`.  The DataFrame is
represented by its index (the claims under scrutiny concern the index,
the DTC metadata and the sample count).  `pd.Timedelta(seconds=x)` is
modelled as the exact rational `x`. -/

/-- Timestamps of the rows whose `Timestamp` cell parses, in row order
(`_rows_to_raw_dataframe` lines 184–199 skips `ValueError` rows). -/
def parsedTimestamps (rows : List Row) : List ℚ := rows.filterMap Row.timestamp

/-- Fold-based minimum of a list (`df.index.min()`); `0` for an empty list
(`NaT` never reaches the claims proved here). -/
def listMin : List ℚ → ℚ
  | [] => 0
  | x :: xs => xs.foldl min x

/-- Fold-based maximum of a list (`df.index.max()`). -/
def listMax : List ℚ → ℚ
  | [] => 0
  | x :: xs => xs.foldl max x

/-- Index of the raw DataFrame produced by `_rows_to_raw_dataframe`
(lines 201–218): duplicate timestamps are merged by
`groupby(df.index).mean()` and the frame is then `sort_index()`-ed, so the
index is the sorted list of distinct parsed timestamps. -/
def rawIndex (rows : List Row) : List ℚ :=
  List.insertionSort (· ≤ ·) (dedupFirst (parsedTimestamps rows))

/-- `pd.date_range(start=start, end=stop, freq=freq)`:
the points `start + k·freq` for `k = 0 … ⌊(stop − start)/freq⌋`. -/
def dateRange (start stop freq : ℚ) : List ℚ :=
  if start ≤ stop ∧ 0 < freq then
    (List.range (⌊(stop - start) / freq⌋.toNat + 1)).map
      (fun k : ℕ => start + (k : ℚ) * freq)
  else []

/-- Index produced by `_resample_dataframe` (lines 251–288): an empty frame
is returned unchanged; otherwise every fill method re-indexes onto
`pd.date_range(df.index.min(), df.index.max(), freq)`. -/
def resampleIndex (idx : List ℚ) (freq : ℚ) : List ℚ :=
  if idx = [] then []
  else dateRange (listMin idx) (listMax idx) freq

/-- The claim-relevant fields of `NormalizedTimeSeries`. -/
structure NormalizedTS where
  index : List ℚ
  dtcCodes : List String
  resampleIntervalSeconds : ℚ
  originalSampleCount : ℕ
deriving DecidableEq

/-- Embedding of `time_series_normalizer.normalize_rows` (lines 296–352).
`none` models the `ValueError` rejections (empty row list, non-positive
interval).  `original_count = len(raw_df)` is taken from the raw frame
*after* its duplicate-timestamp merge. -/
def normalizeRows (rows : List Row) (intervalSeconds : ℚ) : Option NormalizedTS :=
  if rows = [] then none
  else if intervalSeconds ≤ 0 then none
  else
    let ridx := rawIndex rows
    some
      { index := resampleIndex ridx intervalSeconds
        dtcCodes := extractDtcCodes rows
        resampleIntervalSeconds := intervalSeconds
        originalSampleCount := ridx.length }

/-- Concrete rows for the C2 witness (timestamps 0 s and 3 s). -/
def c2WitnessRows : List Row := [{ timestamp := some 0 }, { timestamp := some 3 }]

/-- The normalised series the code produces for `c2WitnessRows` at 1 s. -/
def c2WitnessTS : NormalizedTS :=
  { index := [0, 1, 2, 3], dtcCodes := [], resampleIntervalSeconds := 1,
    originalSampleCount := 2 }

/-! ### `statistics_extractor`

Source: `src/obd_agent/statistics_extractor.py`.  Numbers are exact
rationals.  `np.sqrt` (inside `std`, used by `values.std(ddof=0)` and the
autocorrelation denominators) and `np.log2` do not stay in ℚ; the float
library routines are passed in as oracle parameters `sqrtA` / `log2A`.
Every property proved below holds for arbitrary values of these oracles. -/

/-- Round-half-to-even to an integer (Python's bankers' `round`). -/
def rhe (x : ℚ) : ℤ :=
  if x - ⌊x⌋ < 1/2 then ⌊x⌋
  else if 1/2 < x - ⌊x⌋ then ⌊x⌋ + 1
  else if Even ⌊x⌋ then ⌊x⌋ else ⌊x⌋ + 1

/-- Python `round(x, 4)` — the `_r` helper of `_compute_signal_stats`. -/
def r4 (x : ℚ) : ℚ := (rhe (x * 10000) : ℚ) / 10000

/-- Arithmetic mean (`np.mean`). -/
def listMean (values : List ℚ) : ℚ := values.sum / values.length

/-- Population variance — the square of `values.std(ddof=0)`. -/
def popVar (values : List ℚ) : ℚ :=
  (values.map (fun v => (v - listMean values) ^ 2)).sum / values.length

/-- Linear interpolation at fractional position `h` into the sorted data —
the core of `np.percentile`. -/
def interpAt (s : List ℚ) (h : ℚ) : ℚ :=
  s.getD ⌊h⌋.toNat 0
    + (h - (⌊h⌋.toNat : ℚ))
      * (s.getD (min (⌊h⌋.toNat + 1) (s.length - 1)) 0 - s.getD ⌊h⌋.toNat 0)

/-- `np.percentile(values, p)` (linear interpolation between order
statistics): position `h = p·(n−1)/100` into the sorted data. -/
def percentile (values : List ℚ) (p : ℚ) : ℚ :=
  interpAt (List.insertionSort (· ≤ ·) values)
    (p * ((values.length : ℚ) - 1) / 100)

/-- Embedding of `_autocorrelation_lag1` (lines 105–122): `NaN` (= `none`)
when `n < 3` or either shifted subsequence has zero (float) std. -/
def autocorrLag1 (sqrtA : ℚ → ℚ) (values : List ℚ) : Option ℚ :=
  if values.length < 3 then none
  else
    let x := values.dropLast
    let y := values.tail
    let xStd := sqrtA (popVar x)
    let yStd := sqrtA (popVar y)
    if xStd = 0 ∨ yStd = 0 then none
    else
      let cov := ((x.zip y).map
        (fun p => (p.1 - listMean x) * (p.2 - listMean y))).sum / x.length
      some (cov / (xStd * yStd))

/-- `np.histogram(values, bins=nBins)` counts over equal-width bins on
`[min, max]`; every bin is right-open except the last. -/
def histCounts (values : List ℚ) (nBins : ℕ) : List ℕ :=
  let mn := listMin values
  let mx := listMax values
  let width := (mx - mn) / nBins
  (List.range nBins).map (fun i =>
    (values.filter (fun v =>
      if i + 1 = nBins then decide (mn + i * width ≤ v ∧ v ≤ mx)
      else decide (mn + i * width ≤ v ∧ v < mn + ((i : ℚ) + 1) * width))).length)

/-- Embedding of `_shannon_entropy` (lines 125–138): `none` for `n < 2`,
`0` for a constant signal, else `−Σ p·log2 p` over the non-zero
10-bin histogram probabilities. -/
def shannonEntropy (log2A : ℚ → ℚ) (values : List ℚ) (nBins : ℕ) : Option ℚ :=
  if values.length < 2 then none
  else if listMin values = listMax values then some 0
  else
    let counts := histCounts values nBins
    let total : ℚ := ((counts.sum : ℕ) : ℚ)
    let probs := (counts.map (fun c => (c : ℚ) / total)).filter (fun p => 0 < p)
    some (-(probs.map (fun p => p * log2A p)).sum)

/-- The 15 fields of `SignalStats`; `Option ℚ` fields are `NaN`-able. -/
structure SignalStats where
  mean : ℚ
  std : ℚ
  min : ℚ
  max : ℚ
  p5 : ℚ
  p25 : ℚ
  p50 : ℚ
  p75 : ℚ
  p95 : ℚ
  autocorrelationLag1 : Option ℚ
  meanAbsChange : Option ℚ
  maxAbsChange : Option ℚ
  energy : ℚ
  entropy : Option ℚ
  validCount : ℕ
deriving DecidableEq

/-- Embedding of `_compute_signal_stats` (lines 141–204): each field is
rounded to 4 decimal places unless it is `NaN`. -/
def computeSignalStats (sqrtA log2A : ℚ → ℚ) (values : List ℚ) : SignalStats :=
  let n := values.length
  let diffs := (values.zip values.tail).map (fun p => |p.2 - p.1|)
  { mean := r4 (listMean values)
    std := r4 (sqrtA (popVar values))
    min := r4 (listMin values)
    max := r4 (listMax values)
    p5 := r4 (percentile values 5)
    p25 := r4 (percentile values 25)
    p50 := r4 (percentile values 50)
    p75 := r4 (percentile values 75)
    p95 := r4 (percentile values 95)
    autocorrelationLag1 := (autocorrLag1 sqrtA values).map r4
    meanAbsChange := if 2 ≤ n then some (r4 (listMean diffs)) else none
    maxAbsChange := if 2 ≤ n then some (r4 (listMax diffs)) else none
    energy := r4 ((values.map (fun v => v ^ 2)).sum / n)
    entropy := (shannonEntropy log2A values 10).map r4
    validCount := n }

/-- `series.dropna()` on a column. -/
def dropNa (col : List (Option ℚ)) : List ℚ := col.filterMap id

/-- Embedding of `extract_statistics` (lines 212–250): per column, drop
nulls, skip all-NaN columns, else compute the 15 statistics. -/
def extractStatistics (sqrtA log2A : ℚ → ℚ)
    (cols : List (String × List (Option ℚ))) : List (String × SignalStats) :=
  cols.filterMap (fun c =>
    let series := dropNa c.2
    if series.length = 0 then none
    else some (c.1, computeSignalStats sqrtA log2A series))

/-! ### `anomaly_detector`

Source: `src/obd_agent/anomaly_detector.py`.  The DataFrame is its index
(`List ℚ` of timestamps) plus named columns of `NaN`-able values.  The two
ML library calls are oracles: `bpOracle` stands for
`ruptures.Pelt(...).predict(pen)` on a column, `maskOracle` for
`IsolationForest.fit_predict(...) == -1`, and `dfnOracle s e` for
`np.mean(iso.decision_function(...))` over the outlier run `[s, e]`; the
`sqrtA` float-sqrt oracle enters through the z-score std, and `ctxOracle`
stands for `_infer_driving_context` on a window (its label feeds the
`context` field only).  Every claim proved below holds for arbitrary
oracle values.  Event `pattern` strings elide the `%.2f` float formatting
of the source. -/

/-- `_CRITICAL_SIGNALS` (lines 135–144). -/
def criticalSignals : List String :=
  ["engine_rpm", "vehicle_speed", "coolant_temperature", "short_fuel_trim_1",
   "long_fuel_trim_1", "engine_load", "throttle_position", "mass_airflow"]

/-- The fields of `AnomalyEvent`; `wStart`/`wEnd` are the time window. -/
structure AnomalyEvent where
  wStart : ℚ
  wEnd : ℚ
  signals : List String
  pattern : String
  context : String
  severity : String
  detector : String
  score : ℚ
deriving DecidableEq

instance : IsTotal AnomalyEvent (fun a b => a.wStart ≤ b.wStart) :=
  ⟨fun x y => le_total x.wStart y.wStart⟩

instance : IsTrans AnomalyEvent (fun a b => a.wStart ≤ b.wStart) :=
  ⟨fun _ _ _ => le_trans⟩

/-- Concrete event for the C5 exhibits (anomaly score `sc`). -/
def c5e (sc : ℚ) : AnomalyEvent :=
  { wStart := 0, wEnd := 10, signals := ["engine_rpm"], pattern := "p",
    context := "unknown", severity := "low", detector := "changepoint", score := sc }

/-- The per-event well-formedness at stake in the claims. -/
def EventOK (e : AnomalyEvent) : Prop :=
  e.signals ≠ [] ∧ 0 ≤ e.score ∧ e.score ≤ 1 ∧ e.wStart ≤ e.wEnd

/-- One merge step of `_merge_overlapping_events` (lines 484–515): window
hull, `dict.fromkeys` signal union, pairwise score average, `combined`
detector on mismatch, pattern concatenation, kept context, recomputed
severity. -/
def mergeTwo (cur nxt : AnomalyEvent) : AnomalyEvent :=
  { wStart := min cur.wStart nxt.wStart
    wEnd := max cur.wEnd nxt.wEnd
    signals := dedupFirst (cur.signals ++ nxt.signals)
    pattern := cur.pattern ++ "; " ++ nxt.pattern
    context := cur.context
    severity := computeSeverity (dedupFirst (cur.signals ++ nxt.signals)).length
      ((cur.score + nxt.score) / 2)
      (max cur.wEnd nxt.wEnd - min cur.wStart nxt.wStart)
      ((dedupFirst (cur.signals ++ nxt.signals)).any
        (fun s => criticalSignals.contains s))
    detector := if cur.detector ≠ nxt.detector then "combined" else cur.detector
    score := (cur.score + nxt.score) / 2 }

/-- Python's stable `sorted(events, key=lambda e: e.time_window[0])`
(any stable sort computes the same list; insertion sort is one). -/
def sortByStart (events : List AnomalyEvent) : List AnomalyEvent :=
  List.insertionSort (fun a b => a.wStart ≤ b.wStart) events

/-- The walk of `_merge_overlapping_events` (lines 481–521): merge while the
next event starts no later than the current merged window ends. -/
def mergeLoop : AnomalyEvent → List AnomalyEvent → List AnomalyEvent
  | cur, [] => [cur]
  | cur, nxt :: rest =>
    if nxt.wStart ≤ cur.wEnd then mergeLoop (mergeTwo cur nxt) rest
    else cur :: mergeLoop nxt rest

/-- Embedding of `_merge_overlapping_events` (lines 464–521). -/
def mergeOverlappingEvents (events : List AnomalyEvent) : List AnomalyEvent :=
  if events.length ≤ 1 then events
  else
    match sortByStart events with
    | [] => []
    | e :: rest => mergeLoop e rest

/-- The left fold of the step merge over one chain-overlapping group. -/
def collapseGroup (e : AnomalyEvent) (group : List AnomalyEvent) : AnomalyEvent :=
  group.foldl mergeTwo e

/-- `group` chain-overlaps `e`: each event starts no later than the end of
the running merged window (§4.4.5's walk condition at every step). -/
def ChainAll : AnomalyEvent → List AnomalyEvent → Prop
  | _, [] => True
  | cur, nxt :: rest => nxt.wStart ≤ cur.wEnd ∧ ChainAll (mergeTwo cur nxt) rest

/-- Python slice `l[a:b]` (indices clamped). -/
def pySlice (l : List ℚ) (a b : ℕ) : List ℚ := (l.drop a).take (b - a)

/-- `Series.ffill()` — forward fill with the last seen value. -/
def ffillAux : Option ℚ → List (Option ℚ) → List (Option ℚ)
  | _, [] => []
  | last, x :: xs =>
    match x with
    | some v => some v :: ffillAux (some v) xs
    | none => last :: ffillAux last xs

def ffill (l : List (Option ℚ)) : List (Option ℚ) := ffillAux none l

/-- `Series.bfill()` — backward fill. -/
def bfill (l : List (Option ℚ)) : List (Option ℚ) := (ffillAux none l.reverse).reverse

/-- `_filter_variable_columns` (lines 162–172): keep columns that are
neither all-NaN nor constant (`nunique() <= 1`). -/
def filterVariableColumns (cols : List (String × List (Option ℚ))) :
    List (String × List (Option ℚ)) :=
  cols.filter (fun c =>
    ¬ (dropNa c.2).length = 0 ∧ ¬ (dedupFirst (dropNa c.2)).length ≤ 1)

/-- `_find_contiguous_runs` (lines 248–272): state-machine pass producing
inclusive `(start, end)` pairs; `i` is the current position, the `Option`
the run-start when inside a run. -/
def findRunsAux : ℕ → Option ℕ → List Bool → List (ℕ × ℕ)
  | i, inRun, [] =>
    match inRun with
    | some s => [(s, i - 1)]
    | none => []
  | i, inRun, b :: rest =>
    match inRun, b with
    | none, true => findRunsAux (i + 1) (some i) rest
    | none, false => findRunsAux (i + 1) none rest
    | some s, true => findRunsAux (i + 1) (some s) rest
    | some s, false => (s, i - 1) :: findRunsAux (i + 1) none rest

def findRuns (mask : List Bool) : List (ℕ × ℕ) := findRunsAux 0 none mask

/-- `pd.Series(values).ffill().bfill().values` of a column. -/
def filledOf (data : List (Option ℚ)) : List ℚ :=
  (bfill (ffill data)).map (fun o => o.getD 0)

/-- One candidate event of `_detect_changepoints` (lines 318–363) at break
index `bp`: window of half-width `max(min_segment_length // 2, 2)`, level
shift of the side means over the signal range as score. -/
def cpEventAt (index : List ℚ) (minSegLen : ℕ) (ctxOracle : ℕ → ℕ → String)
    (colName : String) (filled : List ℚ) (range : ℚ) (bp : ℕ) :
    Option AnomalyEvent :=
  if (pySlice filled (bp - max (minSegLen / 2) 2) bp).length = 0
      ∨ (pySlice filled bp (min index.length (bp + max (minSegLen / 2) 2))).length = 0
  then none
  else
    some { wStart := index.getD (bp - max (minSegLen / 2) 2) 0
           wEnd := index.getD (min (index.length - 1) (bp + max (minSegLen / 2) 2 - 1)) 0
           signals := [colName]
           pattern := "Change-point in " ++ colName
           context := ctxOracle (bp - max (minSegLen / 2) 2)
             (min (index.length - 1) (bp + max (minSegLen / 2) 2 - 1))
           severity := computeSeverity 1
             (min 1 (|listMean (pySlice filled bp
                 (min index.length (bp + max (minSegLen / 2) 2)))
               - listMean (pySlice filled (bp - max (minSegLen / 2) 2) bp)| / range))
             (index.getD (min (index.length - 1) (bp + max (minSegLen / 2) 2 - 1)) 0
               - index.getD (bp - max (minSegLen / 2) 2) 0)
             (criticalSignals.contains colName)
           detector := "changepoint"
           score := min 1 (|listMean (pySlice filled bp
               (min index.length (bp + max (minSegLen / 2) 2)))
             - listMean (pySlice filled (bp - max (minSegLen / 2) 2) bp)| / range) }

/-- Per-column events of `_detect_changepoints` (lines 275–365) driven by
the `ruptures` breakpoint oracle `bps`: skip columns with fewer than 20
valid samples or zero range, keep oracle breakpoints below the row count. -/
def cpEventsFor (index : List ℚ) (minSegLen : ℕ) (ctxOracle : ℕ → ℕ → String)
    (colName : String) (data : List (Option ℚ)) (bps : List ℕ) :
    List AnomalyEvent :=
  if (dropNa data).length < 20 then []
  else if listMax (filledOf data) - listMin (filledOf data) = 0 then []
  else
    (bps.filter (fun bp => bp < index.length)).filterMap
      (cpEventAt index minSegLen ctxOracle colName (filledOf data)
        (listMax (filledOf data) - listMin (filledOf data)))

/-- `_detect_changepoints` over all variable columns. -/
def detectChangepoints (index : List ℚ) (cols : List (String × List (Option ℚ)))
    (minSegLen : ℕ) (bpOracle : String → List ℕ) (ctxOracle : ℕ → ℕ → String) :
    List AnomalyEvent :=
  if index.length < 20 then []
  else cols.flatMap (fun c => cpEventsFor index minSegLen ctxOracle c.1 c.2 (bpOracle c.1))

/-- Z-score normalisation of a filled column (zero float std replaced by 1). -/
def zScores (sqrtA : ℚ → ℚ) (data : List ℚ) : List ℚ :=
  let m := listMean data
  let sd := sqrtA (popVar data)
  data.map (fun v => (v - m) / (if sd = 0 then 1 else sd))

/-- `Series.nlargest(k)` keys (stable descending order, `keep='first'`). -/
def topSignals (pairs : List (String × ℚ)) (k : ℕ) : List String :=
  ((List.insertionSort (fun a b : String × ℚ => b.2 ≤ a.2) pairs).take k).map Prod.fst

/-- The columns surviving `mat.dropna(axis=1, how="all")`. -/
def usedColumns (cols : List (String × List (Option ℚ))) :
    List (String × List (Option ℚ)) :=
  cols.filter (fun c => ¬ (dropNa c.2).length = 0)

/-- One event of `_detect_multivariate_outliers` (lines 417–459) for the
outlier run `run`: top-5 signals by mean absolute z-score over the run,
score from the clipped negated mean decision-function oracle. -/
def ifEventAt (index : List ℚ) (used : List (String × List (Option ℚ)))
    (sqrtA : ℚ → ℚ) (dfnOracle : ℕ → ℕ → ℚ) (ctxOracle : ℕ → ℕ → String)
    (run : ℕ × ℕ) : AnomalyEvent :=
  { wStart := index.getD run.1 0
    wEnd := index.getD run.2 0
    signals := topSignals
      (used.map (fun c =>
        (c.1, listMean ((pySlice (zScores sqrtA (filledOf c.2)) run.1 (run.2 + 1)).map
          (fun z => |z|)))))
      (min 5 used.length)
    pattern := "Multivariate outlier"
    context := ctxOracle run.1 run.2
    severity := computeSeverity
      (topSignals
        (used.map (fun c =>
          (c.1, listMean ((pySlice (zScores sqrtA (filledOf c.2)) run.1 (run.2 + 1)).map
            (fun z => |z|)))))
        (min 5 used.length)).length
      (max 0 (min 1 (-(dfnOracle run.1 run.2))))
      (index.getD run.2 0 - index.getD run.1 0)
      ((topSignals
        (used.map (fun c =>
          (c.1, listMean ((pySlice (zScores sqrtA (filledOf c.2)) run.1 (run.2 + 1)).map
            (fun z => |z|)))))
        (min 5 used.length)).any (fun t => criticalSignals.contains t))
    detector := "isolation_forest"
    score := max 0 (min 1 (-(dfnOracle run.1 run.2))) }

/-- Embedding of `_detect_multivariate_outliers` (lines 368–461) driven by
the Isolation-Forest oracles. -/
def detectIsolationForest (index : List ℚ) (cols : List (String × List (Option ℚ)))
    (sqrtA : ℚ → ℚ) (mask : List Bool) (dfnOracle : ℕ → ℕ → ℚ)
    (ctxOracle : ℕ → ℕ → String) : List AnomalyEvent :=
  if index.length < 30 then []
  else if cols.length < 2 then []
  else if (usedColumns cols).length < 2 then []
  else if mask.any (fun b => b) = false then []
  else
    (findRuns mask).map
      (ifEventAt index (usedColumns cols) sqrtA dfnOracle ctxOracle)

/-- The claim-relevant fields of `AnomalyReport`. -/
structure AnomalyReport where
  events : List AnomalyEvent
  dtcCodes : List String
deriving DecidableEq

/-- Embedding of `detect_anomalies` (lines 529–618); `none` models the
`ValueError` rejections of the tuning parameters. -/
def detectAnomalies (index : List ℚ) (cols : List (String × List (Option ℚ)))
    (dtcCodes : List String) (minSegLen : ℕ) (contamination : ℚ)
    (bpOracle : String → List ℕ) (maskOracle : List Bool)
    (dfnOracle : ℕ → ℕ → ℚ) (sqrtA : ℚ → ℚ) (ctxOracle : ℕ → ℕ → String) :
    Option AnomalyReport :=
  if ¬ (0 < contamination ∧ contamination ≤ 1/2) then none
  else if minSegLen < 2 then none
  else if index.length = 0 ∨ index.length < 20 then
    some { events := [], dtcCodes := dtcCodes }
  else
    let columns := filterVariableColumns cols
    if columns.length = 0 then some { events := [], dtcCodes := dtcCodes }
    else
      let cp := detectChangepoints index columns minSegLen bpOracle ctxOracle
      let ifev := detectIsolationForest index columns sqrtA maskOracle dfnOracle ctxOracle
      some { events := sortByStart (mergeOverlappingEvents (cp ++ ifev))
             dtcCodes := dtcCodes }

/-! ### `clue_generator`

Source: `src/obd_agent/clue_generator.py`.  Rule dicts become a typed
`Rule`; keys read with `cond.get(key)` become `Option` fields, `cond.get`
with a default is `Option.getD`.  A template string is modelled by its
parsed placeholder structure (`str.format_map` field parsing is a Python
builtin): literal runs and `{key}` / `{key.field}` placeholders; format
specs are elided.  `str(float)` rendering is abstracted by `toString` on
the exact rationals. -/

/-- getattr on `SignalStats` restricted to `_SIGNAL_STATS_FIELDS`:
`none` = unknown field (`AttributeError`), `some none` = `NaN` value. -/
def SignalStats.getField (ss : SignalStats) (field : String) : Option (Option ℚ) :=
  if field = "mean" then some (some ss.mean)
  else if field = "std" then some (some ss.std)
  else if field = "min" then some (some ss.min)
  else if field = "max" then some (some ss.max)
  else if field = "p5" then some (some ss.p5)
  else if field = "p25" then some (some ss.p25)
  else if field = "p50" then some (some ss.p50)
  else if field = "p75" then some (some ss.p75)
  else if field = "p95" then some (some ss.p95)
  else if field = "autocorrelation_lag1" then some ss.autocorrelationLag1
  else if field = "mean_abs_change" then some ss.meanAbsChange
  else if field = "max_abs_change" then some ss.maxAbsChange
  else if field = "energy" then some (some ss.energy)
  else if field = "entropy" then some ss.entropy
  else if field = "valid_count" then some (some (ss.validCount : ℚ))
  else none

/-- The claim-relevant fields of the `SignalStatistics` dataclass. -/
structure SignalStatistics where
  stats : List (String × SignalStats)
  dtcCodes : List String

/-- Dict lookup in the `stats` mapping. -/
def statsLookup (stats : List (String × SignalStats)) (signal : String) :
    Option SignalStats :=
  (stats.find? (fun p => p.1 = signal)).map Prod.snd

/-- The `_OPS` operator table; `none` = unknown operator (no match). -/
def applyOp (op : String) (a b : ℚ) : Option Bool :=
  if op = "eq" then some (decide (a = b))
  else if op = "ne" then some (decide (a ≠ b))
  else if op = "lt" then some (decide (a < b))
  else if op = "le" then some (decide (a ≤ b))
  else if op = "gt" then some (decide (b < a))
  else if op = "ge" then some (decide (b ≤ a))
  else none

/-- The five condition kinds of §4.5.2, as read from the condition dicts. -/
inductive Condition where
  | statCheck (signal field op : String) (value : ℚ)
  | statCompare (signalA fieldA signalB fieldB op : String) (ratio : ℚ)
  | signalExists (signal : String) (expected : Bool)
  | dtcCheck (mode : String) (code : Option String) (pfx : Option String)
  | anomalyCheck (signal context severity : Option String)
      (minCount maxCount : Option ℕ)
deriving DecidableEq

/-- Template items: literal text or a `{key}` / `{key.field}` placeholder. -/
inductive TItem where
  | lit (s : String)
  | ph (key : String) (field : Option String)
deriving DecidableEq

/-- A rule dict after `_validate_rule`-shaped reading. -/
structure Rule where
  id : String
  category : String
  severity : String
  conditions : List Condition
  template : List TItem
  description : Option String := none

def validSeverities : List String := ["info", "warning", "critical"]

def validCategories : List String :=
  ["statistical", "anomaly", "interaction", "dtc", "negative_evidence"]

/-- `_validate_rule` (lines 206–229): enum membership and non-empty
conditions (the required dict keys and condition-type tags are enforced by
the `Rule`/`Condition` types). -/
def validateRule (r : Rule) : Bool :=
  validSeverities.contains r.severity && validCategories.contains r.category
    && !r.conditions.isEmpty

/-- `_load_rules` validation (lines 262–271): every rule valid and no
duplicate ids. -/
def validateRules (rules : List Rule) : Bool :=
  rules.all validateRule && decide (rules.map Rule.id).Nodup

/-- Embedding of `_eval_stat_check` (lines 281–314). -/
def evalStatCheck (signal field op : String) (value : ℚ)
    (stats : SignalStatistics) : Bool × List String :=
  match statsLookup stats.stats signal with
  | none => (false, [])
  | some ss =>
    match SignalStats.getField ss field with
    | none => (false, [])
    | some none => (false, [])
    | some (some actual) =>
      match applyOp op actual value with
      | none => (false, [])
      | some m => (m, [signal ++ "." ++ field ++ "=" ++ toString actual])

/-- Embedding of `_eval_anomaly_check` (lines 317–365). -/
def evalAnomalyCheck (signal context severity : Option String)
    (minCount maxCount : Option ℕ) (anomalies : AnomalyReport) :
    Bool × List String × ℕ :=
  let m1 : List AnomalyEvent := match signal with
    | some sf => anomalies.events.filter (fun e => e.signals.contains sf)
    | none => anomalies.events
  let m2 : List AnomalyEvent := match context with
    | some cf => m1.filter (fun e => e.context = cf)
    | none => m1
  let m3 : List AnomalyEvent := match severity with
    | some vf => m2.filter (fun e => e.severity = vf)
    | none => m2
  let count := m3.length
  let matched := match minCount with
    | some mc => decide (mc ≤ count)
    | none =>
      match maxCount with
      | some xc => decide (count ≤ xc)
      | none => decide (0 < count)
  let evidence := if matched then
      ["anomaly_events_matched=" ++ toString count]
      ++ (match signal with
          | some sf => ["anomaly_signal_filter=" ++ sf] | none => [])
      ++ (match context with
          | some cf => ["anomaly_context_filter=" ++ cf] | none => [])
      ++ (match severity with
          | some vf => ["anomaly_severity_filter=" ++ vf] | none => [])
    else []
  (matched, evidence, count)

/-- Embedding of `_eval_dtc_check` (lines 368–412). -/
def evalDtcCheck (mode : String) (code : Option String) (pfx : Option String)
    (dtcCodes : List String) : Bool × List String × String :=
  if mode = "absent" then
    (decide (dtcCodes.length = 0), ["dtc_count=" ++ toString dtcCodes.length], "")
  else
    let p := pfx.getD ""
    if mode = "prefix" then
      let found := dtcCodes.filter (fun c => p.isPrefixOf c)
      (decide (0 < found.length),
        ["dtc_prefix=" ++ p, "dtc_matched=" ++ String.intercalate ", " found],
        String.intercalate ", " found)
    else if mode = "absent_prefix" then
      let found := dtcCodes.filter (fun c => p.isPrefixOf c)
      (decide (found.length = 0),
        ["dtc_absent_prefix=" ++ p, "dtc_matched=" ++ String.intercalate ", " found],
        "")
    else if mode = "present" then
      let cd := code.getD ""
      if cd ≠ "" then
        (decide (cd ∈ dtcCodes),
          ["dtc_code=" ++ cd, "dtc_present=" ++ toString (decide (cd ∈ dtcCodes))],
          if cd ∈ dtcCodes then cd else "")
      else
        (decide (0 < dtcCodes.length), ["dtc_count=" ++ toString dtcCodes.length],
          String.intercalate ", " dtcCodes)
    else (false, [], "")

/-- Embedding of `_eval_stat_compare` (lines 415–466). -/
def evalStatCompare (signalA fieldA signalB fieldB op : String) (ratio : ℚ)
    (stats : SignalStatistics) : Bool × List String :=
  match statsLookup stats.stats signalA, statsLookup stats.stats signalB with
  | some ssa, some ssb =>
    (match SignalStats.getField ssa fieldA, SignalStats.getField ssb fieldB with
     | some (some va), some (some vb) =>
       (match applyOp op va (vb * ratio) with
        | none => (false, [])
        | some m =>
          (m, [signalA ++ "." ++ fieldA ++ "=" ++ toString va,
               signalB ++ "." ++ fieldB ++ "=" ++ toString vb,
               "ratio=" ++ toString ratio]))
     | _, _ => (false, []))
  | _, _ => (false, [])

/-- Embedding of `_eval_signal_exists` (lines 469–483). -/
def evalSignalExists (signal : String) (expected : Bool)
    (stats : SignalStatistics) : Bool × List String :=
  let present := (statsLookup stats.stats signal).isSome
  (present = expected, [signal ++ "_present=" ++ toString present])

/-- The template context (`_build_template_context` plus the per-rule
`anomaly_count` / `matched_dtcs` updates). -/
structure TemplateContext where
  sigs : List (String × SignalStats)
  anomalyCount : ℕ
  matchedDtcs : String

/-- A resolved context value: a signal namespace, a number, or a string. -/
inductive CtxValue where
  | sig (ss : SignalStats)
  | num (n : ℕ)
  | str (s : String)
deriving DecidableEq

/-- Context lookup; the dynamic keys were written last, so they shadow any
signal of the same name.  `none` triggers `_TemplateContext.__missing__`. -/
def ctxLookup (ctx : TemplateContext) (key : String) : Option CtxValue :=
  if key = "anomaly_count" then some (CtxValue.num ctx.anomalyCount)
  else if key = "matched_dtcs" then some (CtxValue.str ctx.matchedDtcs)
  else (statsLookup ctx.sigs key).map CtxValue.sig

/-- Rendering of one replacement field of `str.format_map`:
a missing undotted key becomes the literal `"N/A"`; attribute access on a
missing key's `"N/A"` string, on a non-namespace value, or with an unknown
field raises `AttributeError` (`Except.error`); an undotted signal
namespace formats as `str(stats.mean)`; a `NaN` field prints `nan`. -/
def renderItem (ctx : TemplateContext) : TItem → Except Unit String
  | TItem.lit s => Except.ok s
  | TItem.ph key none =>
    match ctxLookup ctx key with
    | none => Except.ok "N/A"
    | some (CtxValue.sig ss) => Except.ok (toString ss.mean)
    | some (CtxValue.num n) => Except.ok (toString n)
    | some (CtxValue.str s) => Except.ok s
  | TItem.ph key (some field) =>
    match ctxLookup ctx key with
    | none => Except.error ()
    | some (CtxValue.sig ss) =>
      (match SignalStats.getField ss field with
       | none => Except.error ()
       | some none => Except.ok "nan"
       | some (some v) => Except.ok (toString v))
    | some (CtxValue.num _) => Except.error ()
    | some (CtxValue.str _) => Except.error ()

/-- `template.format_map(ctx)` over the parsed items. -/
def renderTemplate (tpl : List TItem) (ctx : TemplateContext) : Except Unit String :=
  match tpl with
  | [] => Except.ok ""
  | item :: rest =>
    match renderItem ctx item, renderTemplate rest ctx with
    | Except.ok s, Except.ok t => Except.ok (s ++ t)
    | Except.error _, _ => Except.error ()
    | _, Except.error _ => Except.error ()

/-- The condition loop of `_evaluate_rule` (lines 499–523): thread the
evidence list and the last `anomaly_check` count / `dtc_check` match
string; abort with `none` on the first non-matching condition. -/
def evalConditions (stats : SignalStatistics) (anomalies : AnomalyReport)
    (dtcCodes : List String) :
    List Condition → List String × ℕ × String → Option (List String × ℕ × String)
  | [], st => some st
  | c :: rest, (ev, cnt, dtcs) =>
    match c with
    | Condition.statCheck s f o v =>
      let r := evalStatCheck s f o v stats
      if r.1 then evalConditions stats anomalies dtcCodes rest (ev ++ r.2, cnt, dtcs)
      else none
    | Condition.anomalyCheck s cf vf mn mx =>
      let r := evalAnomalyCheck s cf vf mn mx anomalies
      if r.1 then
        evalConditions stats anomalies dtcCodes rest (ev ++ r.2.1, r.2.2, dtcs)
      else none
    | Condition.dtcCheck m cd pf =>
      let r := evalDtcCheck m cd pf dtcCodes
      if r.1 then
        evalConditions stats anomalies dtcCodes rest (ev ++ r.2.1, cnt, r.2.2)
      else none
    | Condition.statCompare sa fa sb fb o rt =>
      let r := evalStatCompare sa fa sb fb o rt stats
      if r.1 then evalConditions stats anomalies dtcCodes rest (ev ++ r.2, cnt, dtcs)
      else none
    | Condition.signalExists s ex =>
      let r := evalSignalExists s ex stats
      if r.1 then evalConditions stats anomalies dtcCodes rest (ev ++ r.2, cnt, dtcs)
      else none

/-- The `DiagnosticClue` dataclass. -/
structure DiagnosticClue where
  ruleId : String
  category : String
  clue : String
  evidence : List String
  severity : String
deriving DecidableEq

/-- Embedding of `_evaluate_rule` (lines 491–544): a clue is produced when
every condition matches; a template-rendering `AttributeError` is caught
and the clue text falls back to `rule.get("description", rule["id"])`. -/
def evaluateRule (r : Rule) (stats : SignalStatistics) (anomalies : AnomalyReport)
    (dtcCodes : List String) : Option DiagnosticClue :=
  match evalConditions stats anomalies dtcCodes r.conditions ([], 0, "") with
  | none => none
  | some (evidence, cnt, dtcs) =>
    some { ruleId := r.id
           category := r.category
           clue :=
             match renderTemplate r.template
                 { sigs := stats.stats, anomalyCount := cnt, matchedDtcs := dtcs } with
             | Except.ok s => s
             | Except.error _ => r.description.getD r.id
           evidence := evidence
           severity := r.severity }

/-- The claim-relevant fields of `DiagnosticClueReport`. -/
structure DiagnosticClueReport where
  clues : List DiagnosticClue
  dtcCodes : List String
  rulesApplied : ℕ
  rulesMatched : ℕ

/-- Embedding of `generate_clues` (lines 552–599) on an explicit rules
list (the `rules is None` branch loads and validates the file instead;
claim C8 adds that validation as a hypothesis). -/
def generateClues (stats : SignalStatistics) (anomalies : AnomalyReport)
    (rules : List Rule) : DiagnosticClueReport :=
  { clues := rules.filterMap (fun r => evaluateRule r stats anomalies stats.dtcCodes)
    dtcCodes := stats.dtcCodes
    rulesApplied := rules.length
    rulesMatched :=
      (rules.filterMap (fun r => evaluateRule r stats anomalies stats.dtcCodes)).length }

/-- A well-formed always-matching rule used to exercise `generateClues`. -/
def c8Rule : Rule :=
  { id := "DTC_ABSENT"
    category := "dtc"
    severity := "info"
    conditions := [Condition.dtcCheck "absent" none none]
    template := [TItem.lit "no DTCs stored"]
    description := none }

/-- A matching rule whose template dereferences a field of a signal that is
absent from the statistics, with a description fallback. -/
def c9Rule : Rule :=
  { id := "R1"
    category := "dtc"
    severity := "info"
    conditions := [Condition.dtcCheck "absent" none none]
    template := [TItem.ph "engine_rpm" (some "mean")]
    description := some "fallback text" }

/-- A structurally invalid rule: empty conditions list (and out-of-enum
category/severity), as `generate_clues` accepts when rules are passed
directly. -/
def c10Rule : Rule :=
  { id := "EMPTY_RULE"
    category := "not_a_category"
    severity := "not_a_severity"
    conditions := []
    template := [TItem.lit "fires unconditionally"]
    description := none }


/-! ## Theorems -/

theorem dedupFirstFrom_sublist [DecidableEq α] (seen : List α) (l : List α) :
    List.Sublist (dedupFirstFrom seen l) l := by
  induction l generalizing seen with
  | nil => simp [dedupFirstFrom]
  | cons x xs ih =>
    simp only [dedupFirstFrom]
    split
    · exact (ih seen).cons x
    · exact (ih (x :: seen)).cons₂ x

theorem mem_dedupFirstFrom [DecidableEq α] (seen : List α) (l : List α) (a : α) :
    a ∈ dedupFirstFrom seen l ↔ a ∈ l ∧ a ∉ seen := by
  induction l generalizing seen with
  | nil => simp [dedupFirstFrom]
  | cons x xs ih =>
    simp only [dedupFirstFrom]
    split
    next h =>
      rw [ih]
      constructor
      · rintro ⟨hm, hs⟩
        exact ⟨List.mem_cons_of_mem _ hm, hs⟩
      · rintro ⟨hm, hs⟩
        rcases List.mem_cons.1 hm with rfl | hm'
        · exact absurd h hs
        · exact ⟨hm', hs⟩
    next h =>
      simp only [List.mem_cons, ih, List.mem_cons]
      by_cases hax : a = x
      · subst hax; simp [h]
      · simp [hax]

theorem nodup_dedupFirstFrom [DecidableEq α] (seen : List α) (l : List α) :
    (dedupFirstFrom seen l).Nodup := by
  induction l generalizing seen with
  | nil => simp [dedupFirstFrom]
  | cons x xs ih =>
    simp only [dedupFirstFrom]
    split
    · exact ih seen
    · refine List.nodup_cons.2 ⟨fun hx => ?_, ih (x :: seen)⟩
      exact ((mem_dedupFirstFrom _ _ _).1 hx).2 (List.mem_cons_self x _)

theorem dedupFirst_sublist [DecidableEq α] (l : List α) :
    List.Sublist (dedupFirst l) l :=
  dedupFirstFrom_sublist [] l

theorem mem_dedupFirst [DecidableEq α] (l : List α) (a : α) :
    a ∈ dedupFirst l ↔ a ∈ l := by
  rw [dedupFirst, mem_dedupFirstFrom]; simp

theorem nodup_dedupFirst [DecidableEq α] (l : List α) : (dedupFirst l).Nodup :=
  nodup_dedupFirstFrom [] l


/-! ### Characters and Python `str.upper`

`str.upper` on the ASCII DTC codes is `Char.toUpper` on every character. -/

theorem char_toNat_ofNat (m : ℕ) (h : m < 55296) : (Char.ofNat m).toNat = m := by
  rw [Char.ofNat, dif_pos (Or.inl h)]
  simp [Char.ofNatAux, Char.toNat, UInt32.toNat, BitVec.ofNatLt]

theorem char_toUpper_toUpper (c : Char) : c.toUpper.toUpper = c.toUpper := by
  unfold Char.toUpper
  by_cases h : 97 ≤ c.toNat ∧ c.toNat ≤ 122
  · rw [if_pos h]
    have h2 : (Char.ofNat (c.toNat - 32)).toNat = c.toNat - 32 :=
      char_toNat_ofNat _ (by omega)
    rw [if_neg ?hneg]
    case hneg => rw [h2]; omega
  · simp only [if_neg h]


theorem upper_upper (s : String) : upper (upper s) = upper s := by
  simp only [upper, List.map_map]
  congr 1
  exact List.map_congr_left fun c _ => char_toUpper_toUpper c

/-! ### C1: DTC code list invariants -/

theorem isHexUpperDigit_of_fixed {c : Char} (hhex : isHexDigitPy c = true)
    (hfix : c.toUpper = c) : isHexUpperDigit c = true := by
  have hn : ((48 ≤ c.toNat ∧ c.toNat ≤ 57) ∨ (65 ≤ c.toNat ∧ c.toNat ≤ 70))
      ∨ (97 ≤ c.toNat ∧ c.toNat ≤ 102) := by
    simpa [isHexDigitPy, Bool.or_eq_true, Bool.and_eq_true] using hhex
  have hnotlow : ¬ (97 ≤ c.toNat ∧ c.toNat ≤ 102) := by
    rintro ⟨h1, h2⟩
    have hcond : 97 ≤ c.toNat ∧ c.toNat ≤ 122 := ⟨h1, by omega⟩
    have hv : c.toUpper.toNat = c.toNat - 32 := by
      unfold Char.toUpper
      rw [if_pos hcond]
      exact char_toNat_ofNat _ (by omega)
    rw [hfix] at hv
    omega
  simp only [isHexUpperDigit, Bool.or_eq_true, Bool.and_eq_true, decide_eq_true_eq]
  rcases hn with (h | h) | h
  · exact Or.inl h
  · exact Or.inr h
  · exact absurd h hnotlow

theorem specDtcRegexL_of_fullmatch_fixed (l : List Char)
    (hm : dtcFullmatchL l = true) (hfix : l.map Char.toUpper = l) :
    specDtcRegexL l = true := by
  match l with
  | [a, b, c, d, e] =>
    simp only [dtcFullmatchL, Bool.and_eq_true] at hm
    obtain ⟨⟨⟨⟨h1, h2⟩, h3⟩, h4⟩, h5⟩ := hm
    simp only [List.map, List.cons.injEq] at hfix
    obtain ⟨_, f2, f3, f4, f5, _⟩ := hfix
    simp only [specDtcRegexL, Bool.and_eq_true]
    exact ⟨⟨⟨⟨h1, isHexUpperDigit_of_fixed h2 f2⟩, isHexUpperDigit_of_fixed h3 f3⟩,
      isHexUpperDigit_of_fixed h4 f4⟩, isHexUpperDigit_of_fixed h5 f5⟩
  | [] => exact absurd hm (by decide)
  | [a] => exact absurd hm (by simp [dtcFullmatchL])
  | [a, b] => exact absurd hm (by simp [dtcFullmatchL])
  | [a, b, c] => exact absurd hm (by simp [dtcFullmatchL])
  | [a, b, c, d] => exact absurd hm (by simp [dtcFullmatchL])
  | a :: b :: c :: d :: e :: f :: rest => exact absurd hm (by simp [dtcFullmatchL])

theorem specDtcRegex_of_fullmatch_fixed {s : String}
    (hm : dtcFullmatch s = true) (hfix : upper s = s) : specDtcRegex s = true := by
  have hdata : s.data.map Char.toUpper = s.data := congrArg String.data hfix
  exact specDtcRegexL_of_fullmatch_fixed s.data hm hdata

/-- Every element of the extract-metadata code stream is an upper-cased string. -/
theorem upper_of_mem_dtcStream {rows : List Row} {c : String}
    (h : c ∈ dtcStream rows) : upper c = c := by
  obtain ⟨row, _, hc⟩ := List.mem_flatMap.1 h
  obtain ⟨p, _, rfl⟩ := List.mem_map.1 hc
  exact upper_upper _

theorem snapshotDtcSelect_spec (seen : List String) (l : List (String × String)) :
    (∀ p ∈ snapshotDtcSelect seen l,
        dtcFullmatch p.1 = true ∧ p ∈ l ∧ p.1 ∉ seen)
      ∧ ((snapshotDtcSelect seen l).map Prod.fst).Nodup := by
  induction l generalizing seen with
  | nil => simp [snapshotDtcSelect]
  | cons hd tl ih =>
    obtain ⟨code, desc⟩ := hd
    simp only [snapshotDtcSelect]
    split
    next hcond =>
      obtain ⟨hnot, hfull⟩ := hcond
      constructor
      · intro p hp
        rcases List.mem_cons.1 hp with rfl | hp'
        · exact ⟨hfull, List.mem_cons_self _ _, hnot⟩
        · obtain ⟨h1, h2, h3⟩ := (ih (code :: seen)).1 p hp'
          exact ⟨h1, List.mem_cons_of_mem _ h2,
            fun hs => h3 (List.mem_cons_of_mem _ hs)⟩
      · simp only [List.map_cons]
        refine List.nodup_cons.2 ⟨?_, (ih (code :: seen)).2⟩
        intro hmem
        obtain ⟨p, hp, hpe⟩ := List.mem_map.1 hmem
        exact ((ih (code :: seen)).1 p hp).2.2 (hpe ▸ List.mem_cons_self _ _)
    next hcond =>
      constructor
      · intro p hp
        obtain ⟨h1, h2, h3⟩ := (ih seen).1 p hp
        exact ⟨h1, List.mem_cons_of_mem _ h2, h3⟩
      · exact (ih seen).2

/-- CLAIM C1 (amended).  The `dtc_codes` of a `NormalizedTimeSeries`
(`_extract_metadata`) are upper-case, duplicate-free, and preserve first-seen
order across all rows' `GET_DTC` and `GET_CURRENT_DTC` cells (they form a
sublist of the upper-cased code stream containing each of its elements).
The regex validation `^[PCBU][0-9A-F]{4}$` claimed for these codes is *not*
performed there (see the counterexample); it does hold for the deduplicated
DTC entries that `row_to_snapshot` builds for the parsed-log snapshots. -/
theorem dtc_codes_upper_nodup_first_seen (rows : List Row) (row : Row) :
    (extractDtcCodes rows).Nodup
    ∧ List.Sublist (extractDtcCodes rows) (dtcStream rows)
    ∧ (∀ c ∈ extractDtcCodes rows, upper c = c)
    ∧ (∀ c, c ∈ extractDtcCodes rows ↔ c ∈ dtcStream rows)
    ∧ (∀ p ∈ snapshotDtcEntries row, specDtcRegex p.1 = true ∧ upper p.1 = p.1)
    ∧ ((snapshotDtcEntries row).map Prod.fst).Nodup := by
  refine ⟨nodup_dedupFirst _, dedupFirst_sublist _, ?_, fun c => mem_dedupFirst _ c, ?_, ?_⟩
  · intro c hc
    exact upper_of_mem_dtcStream ((mem_dedupFirst _ c).1 hc)
  · intro p hp
    obtain ⟨hfull, hmem, -⟩ := (snapshotDtcSelect_spec [] _).1 p hp
    obtain ⟨q, -, hq⟩ := List.mem_map.1 hmem
    have hupper : upper p.1 = p.1 := by
      have : p.1 = upper q.1 := congrArg Prod.fst hq.symm
      rw [this, upper_upper]
    exact ⟨specDtcRegex_of_fullmatch_fixed hfull hupper, hupper⟩
  · exact (snapshotDtcSelect_spec [] _).2

/-- Witness for `dtc_codes_upper_nodup_first_seen` at a concrete row. -/
theorem dtc_codes_upper_nodup_first_seen_witness :
    upper "P0301" = "P0301"
    ∧ (specDtcRegex "P0301" = true ∧ upper "P0301" = "P0301")
    ∧ "P0301" ∈ extractDtcCodes [c1WitnessRow] := by
  refine ⟨?_, ?_, ?_⟩
  · exact (dtc_codes_upper_nodup_first_seen [c1WitnessRow] c1WitnessRow).2.2.1
      "P0301" (by decide)
  · exact (dtc_codes_upper_nodup_first_seen [c1WitnessRow] c1WitnessRow).2.2.2.2.1
      ("P0301", "Misfire") (by decide)
  · exact ((dtc_codes_upper_nodup_first_seen [c1WitnessRow] c1WitnessRow).2.2.2.1
      "P0301").2 (by decide)

/-- CLAIM C1 counterexample: a cell parsed through the `ast.literal_eval`
branch of `_parse_dtc_list` is inserted into `dtc_codes` without regex
validation, so a non-conforming code ends up in the
`NormalizedTimeSeries`. -/
theorem dtc_codes_regex_counterexample :
    extractDtcCodes [{ getDtc := some "[(\"X1234\", \"bad\")]" }] = ["X1234"]
    ∧ specDtcRegex "X1234" = false := by
  constructor
  · decide
  · decide

/-- CLAIM C6: the severity tier is determined by the composite
`c = 0.40·clip(score,0,1) + 0.25·min(1,n/8) + 0.15·min(1,d/300) + 0.20·[critical]`:
`high` iff `c ≥ 0.66`, `medium` iff `0.33 ≤ c < 0.66`, and `low` otherwise. -/
theorem severity_matches_composite_thresholds
    (nSignals : ℕ) (score durationSeconds : ℚ) (hasCritical : Bool) :
    (computeSeverity nSignals score durationSeconds hasCritical = "high"
        ↔ compositeRaw nSignals score durationSeconds hasCritical ≥ 0.66)
      ∧ (computeSeverity nSignals score durationSeconds hasCritical = "medium"
          ↔ 0.33 ≤ compositeRaw nSignals score durationSeconds hasCritical
            ∧ compositeRaw nSignals score durationSeconds hasCritical < 0.66)
      ∧ (computeSeverity nSignals score durationSeconds hasCritical = "low"
          ↔ compositeRaw nSignals score durationSeconds hasCritical < 0.33) := by
  set c : ℚ := compositeRaw nSignals score durationSeconds hasCritical with hc
  have hsn : (0 : ℚ) ≤ max 0 (min 1 score) := le_max_left _ _
  have hsn1 : max 0 (min 1 score) ≤ 1 :=
    max_le (by norm_num) (min_le_left _ _)
  have hgn : (0 : ℚ) ≤ min 1 ((nSignals : ℚ) / 8) :=
    le_min (by norm_num) (by positivity)
  have hgn1 : min 1 ((nSignals : ℚ) / 8) ≤ 1 := min_le_left _ _
  have hdn1 : min 1 (durationSeconds / 300) ≤ 1 := min_le_left _ _
  have hcn : (0 : ℚ) ≤ (if hasCritical then (1:ℚ) else 0) := by
    split <;> norm_num
  have hcn1 : (if hasCritical then (1:ℚ) else 0) ≤ 1 := by
    split <;> norm_num
  have hc1 : c ≤ 1 := by
    rw [hc]
    simp only [compositeRaw]
    nlinarith [hsn1, hgn1, hdn1, hcn1]
  -- the final clip `max 0 (min 1 c)` never changes the threshold comparisons
  have hmin : min 1 c = c := min_eq_right hc1
  have hcomp : computeSeverity nSignals score durationSeconds hasCritical =
      (if max 0 (min 1 c) ≥ severityThresholds.2 then "high"
       else if max 0 (min 1 c) ≥ severityThresholds.1 then "medium" else "low") := by
    rw [hc]
    rfl
  rw [hmin] at hcomp
  have h2 : (max 0 c ≥ (0.66 : ℚ)) ↔ c ≥ 0.66 := by
    constructor
    · intro h
      rcases max_cases 0 c with ⟨he, _⟩ | ⟨he, _⟩
      · rw [he] at h; norm_num at h
      · rwa [he] at h
    · intro h; exact le_trans h (le_max_right _ _)
  have h1 : (max 0 c ≥ (0.33 : ℚ)) ↔ c ≥ 0.33 := by
    constructor
    · intro h
      rcases max_cases 0 c with ⟨he, _⟩ | ⟨he, _⟩
      · rw [he] at h; norm_num at h
      · rwa [he] at h
    · intro h; exact le_trans h (le_max_right _ _)
  rw [hcomp]
  simp only [severityThresholds]
  by_cases hb : max 0 c ≥ (0.66 : ℚ)
  · have hc66 : c ≥ 0.66 := h2.1 hb
    rw [if_pos hb]
    refine ⟨⟨fun _ => hc66, fun _ => rfl⟩, ?_, ?_⟩
    · constructor
      · intro h; exact absurd h (by decide)
      · rintro ⟨_, hlt⟩; linarith
    · constructor
      · intro h; exact absurd h (by decide)
      · intro hlt; linarith
  · by_cases ha : max 0 c ≥ (0.33 : ℚ)
    · have hc33 : c ≥ 0.33 := h1.1 ha
      have hc66 : ¬ c ≥ 0.66 := fun h => hb (h2.2 h)
      rw [if_neg hb, if_pos ha]
      refine ⟨?_, ?_, ?_⟩
      · constructor
        · intro h; exact absurd h (by decide)
        · intro h; exact absurd h hc66
      · exact ⟨fun _ => ⟨hc33, lt_of_not_le hc66⟩, fun _ => rfl⟩
      · constructor
        · intro h; exact absurd h (by decide)
        · intro h; linarith
    · have hc33 : ¬ c ≥ 0.33 := fun h => ha (h1.2 h)
      have hc66 : ¬ c ≥ 0.66 := fun h => hb (h2.2 h)
      rw [if_neg hb, if_neg ha]
      refine ⟨?_, ?_, ?_⟩
      · constructor
        · intro h; exact absurd h (by decide)
        · intro h; exact absurd h hc66
      · constructor
        · intro h; exact absurd h (by decide)
        · rintro ⟨h, _⟩; exact absurd h hc33
      · exact ⟨fun _ => lt_of_not_le hc33, fun _ => rfl⟩

/-! ### Minimum / maximum helper lemmas -/

theorem foldl_min_le (xs : List ℚ) (a : ℚ) :
    xs.foldl min a ≤ a ∧ ∀ x ∈ xs, xs.foldl min a ≤ x := by
  induction xs generalizing a with
  | nil => simp
  | cons y ys ih =>
    simp only [List.foldl_cons]
    refine ⟨le_trans (ih (min a y)).1 (min_le_left _ _), ?_⟩
    intro x hx
    rcases List.mem_cons.1 hx with rfl | hx'
    · exact le_trans (ih (min a x)).1 (min_le_right _ _)
    · exact (ih (min a y)).2 x hx'

theorem foldl_min_mem (xs : List ℚ) (a : ℚ) :
    xs.foldl min a = a ∨ xs.foldl min a ∈ xs := by
  induction xs generalizing a with
  | nil => simp
  | cons y ys ih =>
    simp only [List.foldl_cons]
    rcases ih (min a y) with he | hm
    · rcases min_choice a y with hc | hc
      · exact Or.inl (he.trans hc)
      · refine Or.inr ?_
        rw [he, hc]
        exact List.mem_cons_self _ _
    · exact Or.inr (List.mem_cons_of_mem _ hm)

theorem foldl_max_ge (xs : List ℚ) (a : ℚ) :
    a ≤ xs.foldl max a ∧ ∀ x ∈ xs, x ≤ xs.foldl max a := by
  induction xs generalizing a with
  | nil => simp
  | cons y ys ih =>
    simp only [List.foldl_cons]
    refine ⟨le_trans (le_max_left _ _) (ih (max a y)).1, ?_⟩
    intro x hx
    rcases List.mem_cons.1 hx with rfl | hx'
    · exact le_trans (le_max_right _ _) (ih (max a x)).1
    · exact (ih (max a y)).2 x hx'

theorem foldl_max_mem (xs : List ℚ) (a : ℚ) :
    xs.foldl max a = a ∨ xs.foldl max a ∈ xs := by
  induction xs generalizing a with
  | nil => simp
  | cons y ys ih =>
    simp only [List.foldl_cons]
    rcases ih (max a y) with he | hm
    · rcases max_choice a y with hc | hc
      · exact Or.inl (he.trans hc)
      · refine Or.inr ?_
        rw [he, hc]
        exact List.mem_cons_self _ _
    · exact Or.inr (List.mem_cons_of_mem _ hm)

theorem listMin_le {l : List ℚ} : ∀ x ∈ l, listMin l ≤ x := by
  intro x hx
  cases l with
  | nil => cases hx
  | cons y ys =>
    rcases List.mem_cons.1 hx with rfl | hx'
    · exact (foldl_min_le ys x).1
    · exact (foldl_min_le ys y).2 x hx'

theorem listMin_mem {l : List ℚ} (h : l ≠ []) : listMin l ∈ l := by
  cases l with
  | nil => exact absurd rfl h
  | cons y ys =>
    rcases foldl_min_mem ys y with he | hm
    · simp only [listMin]
      rw [he]
      exact List.mem_cons_self _ _
    · exact List.mem_cons_of_mem _ hm

theorem listMax_ge {l : List ℚ} : ∀ x ∈ l, x ≤ listMax l := by
  intro x hx
  cases l with
  | nil => cases hx
  | cons y ys =>
    rcases List.mem_cons.1 hx with rfl | hx'
    · exact (foldl_max_ge ys x).1
    · exact (foldl_max_ge ys y).2 x hx'

theorem listMax_mem {l : List ℚ} (h : l ≠ []) : listMax l ∈ l := by
  cases l with
  | nil => exact absurd rfl h
  | cons y ys =>
    rcases foldl_max_mem ys y with he | hm
    · simp only [listMax]
      rw [he]
      exact List.mem_cons_self _ _
    · exact List.mem_cons_of_mem _ hm

theorem listMin_congr {l₁ l₂ : List ℚ} (h₁ : l₁ ≠ []) (h₂ : l₂ ≠ [])
    (hm : ∀ x, x ∈ l₁ ↔ x ∈ l₂) : listMin l₁ = listMin l₂ :=
  le_antisymm (listMin_le _ ((hm _).2 (listMin_mem h₂)))
    (listMin_le _ ((hm _).1 (listMin_mem h₁)))

theorem listMax_congr {l₁ l₂ : List ℚ} (h₁ : l₁ ≠ []) (h₂ : l₂ ≠ [])
    (hm : ∀ x, x ∈ l₁ ↔ x ∈ l₂) : listMax l₁ = listMax l₂ :=
  le_antisymm (listMax_ge _ ((hm _).1 (listMax_mem h₁)))
    (listMax_ge _ ((hm _).2 (listMax_mem h₂)))

/-! ### `pd.date_range` lemmas -/

theorem dateRange_eq (start stop freq : ℚ) (hs : start ≤ stop) (hf : 0 < freq) :
    dateRange start stop freq =
      (List.range (⌊(stop - start) / freq⌋.toNat + 1)).map
        (fun k : ℕ => start + (k : ℚ) * freq) := by
  rw [dateRange, if_pos ⟨hs, hf⟩]

theorem dateRange_length (start stop freq : ℚ) (hs : start ≤ stop) (hf : 0 < freq) :
    (dateRange start stop freq).length = ⌊(stop - start) / freq⌋.toNat + 1 := by
  rw [dateRange_eq start stop freq hs hf, List.length_map, List.length_range]

theorem dateRange_getElem (start stop freq : ℚ) (hs : start ≤ stop) (hf : 0 < freq)
    (k : ℕ) (hk : k < (dateRange start stop freq).length) :
    (dateRange start stop freq)[k] = start + (k : ℚ) * freq := by
  simp only [dateRange_eq start stop freq hs hf] at hk ⊢
  rw [List.getElem_map]
  congr 1
  rw [List.getElem_range]

theorem dateRange_sorted (start stop freq : ℚ) (hs : start ≤ stop) (hf : 0 < freq) :
    List.Sorted (· < ·) (dateRange start stop freq) := by
  rw [List.Sorted, List.pairwise_iff_getElem]
  intro a b ha hb hab
  rw [dateRange_getElem start stop freq hs hf a ha,
    dateRange_getElem start stop freq hs hf b hb]
  have : (a : ℚ) < (b : ℚ) := by exact_mod_cast hab
  nlinarith

theorem dateRange_spacing (start stop freq : ℚ) (hs : start ≤ stop) (hf : 0 < freq)
    (k : ℕ) (hk : k + 1 < (dateRange start stop freq).length) :
    (dateRange start stop freq).getD (k + 1) 0 - (dateRange start stop freq).getD k 0
      = freq := by
  rw [List.getD_eq_getElem _ _ hk, List.getD_eq_getElem _ _ (by omega),
    dateRange_getElem start stop freq hs hf _ hk,
    dateRange_getElem start stop freq hs hf _ (by omega)]
  push_cast
  ring

theorem dateRange_head (start stop freq : ℚ) (hs : start ≤ stop) (hf : 0 < freq) :
    (dateRange start stop freq).head? = some start := by
  have hl : 0 < (dateRange start stop freq).length := by
    rw [dateRange_length start stop freq hs hf]; omega
  rw [List.head?_eq_getElem?, List.getElem?_eq_getElem hl,
    dateRange_getElem start stop freq hs hf 0 hl]
  norm_num

theorem dateRange_floor_nonneg (start stop freq : ℚ) (hs : start ≤ stop) (hf : 0 < freq) :
    0 ≤ ⌊(stop - start) / freq⌋ :=
  Int.floor_nonneg.2 (div_nonneg (by linarith) hf.le)

theorem dateRange_getLast (start stop freq : ℚ) (hs : start ≤ stop) (hf : 0 < freq) :
    (dateRange start stop freq).getLast?
      = some (start + (⌊(stop - start) / freq⌋ : ℚ) * freq) := by
  have hlen := dateRange_length start stop freq hs hf
  have hl : (dateRange start stop freq).length - 1 < (dateRange start stop freq).length := by
    omega
  rw [List.getLast?_eq_getElem?, List.getElem?_eq_getElem hl,
    dateRange_getElem start stop freq hs hf _ hl]
  have h0 := dateRange_floor_nonneg start stop freq hs hf
  have hcast : ((((dateRange start stop freq).length - 1) : ℕ) : ℚ)
      = (⌊(stop - start) / freq⌋ : ℚ) := by
    rw [hlen]
    simp only [Nat.add_sub_cancel]
    exact_mod_cast Int.toNat_of_nonneg h0
  rw [hcast]

theorem dateRange_le_stop (start stop freq : ℚ) (hs : start ≤ stop) (hf : 0 < freq) :
    ∀ x ∈ dateRange start stop freq, x ≤ stop := by
  intro x hx
  rw [dateRange_eq start stop freq hs hf] at hx
  obtain ⟨k, hk, rfl⟩ := List.mem_map.1 hx
  rw [List.mem_range] at hk
  have h0 := dateRange_floor_nonneg start stop freq hs hf
  have hk' : (k : ℚ) ≤ (⌊(stop - start) / freq⌋ : ℚ) := by
    have : (k : ℤ) ≤ ⌊(stop - start) / freq⌋ := by omega
    exact_mod_cast this
  have hfl : (⌊(stop - start) / freq⌋ : ℚ) ≤ (stop - start) / freq := Int.floor_le _
  have : (k : ℚ) * freq ≤ stop - start := by
    calc (k : ℚ) * freq ≤ ((stop - start) / freq) * freq := by nlinarith
    _ = stop - start := by field_simp
  linarith

theorem dateRange_stop_mem_iff (start stop freq : ℚ) (hs : start ≤ stop) (hf : 0 < freq) :
    stop ∈ dateRange start stop freq ↔ ∃ k : ℕ, stop - start = (k : ℚ) * freq := by
  rw [dateRange_eq start stop freq hs hf]
  constructor
  · intro hx
    obtain ⟨k, _, hk⟩ := List.mem_map.1 hx
    exact ⟨k, by linarith⟩
  · rintro ⟨k, hk⟩
    have hdiv : (stop - start) / freq = (k : ℚ) := by
      rw [hk]; field_simp
    have hfl : ⌊(stop - start) / freq⌋ = (k : ℤ) := by
      rw [hdiv]
      exact_mod_cast Int.floor_natCast k
    refine List.mem_map.2 ⟨k, List.mem_range.2 ?_, by linarith⟩
    omega

/-! ### `rawIndex` and normalisation lemmas -/

theorem mem_rawIndex (rows : List Row) (x : ℚ) :
    x ∈ rawIndex rows ↔ x ∈ parsedTimestamps rows := by
  rw [rawIndex, (List.perm_insertionSort _ _).mem_iff, mem_dedupFirst]

theorem rawIndex_ne_nil {rows : List Row} (h : parsedTimestamps rows ≠ []) :
    rawIndex rows ≠ [] := by
  obtain ⟨x, hx⟩ := List.exists_mem_of_ne_nil _ h
  exact List.ne_nil_of_mem ((mem_rawIndex rows x).2 hx)

theorem listMin_rawIndex {rows : List Row} (h : parsedTimestamps rows ≠ []) :
    listMin (rawIndex rows) = listMin (parsedTimestamps rows) :=
  listMin_congr (rawIndex_ne_nil h) h (mem_rawIndex rows)

theorem listMax_rawIndex {rows : List Row} (h : parsedTimestamps rows ≠ []) :
    listMax (rawIndex rows) = listMax (parsedTimestamps rows) :=
  listMax_congr (rawIndex_ne_nil h) h (mem_rawIndex rows)

/-- Destruct a successful `normalizeRows` call. -/
theorem normalizeRows_eq {rows : List Row} {i : ℚ} {ts : NormalizedTS}
    (h : normalizeRows rows i = some ts) :
    rows ≠ [] ∧ 0 < i
      ∧ ts = { index := resampleIndex (rawIndex rows) i
               dtcCodes := extractDtcCodes rows
               resampleIntervalSeconds := i
               originalSampleCount := (rawIndex rows).length } := by
  by_cases hr : rows = []
  · rw [normalizeRows, if_pos hr] at h; cases h
  · by_cases hi : i ≤ 0
    · rw [normalizeRows, if_neg hr, if_pos hi] at h; cases h
    · rw [normalizeRows, if_neg hr, if_neg hi] at h
      exact ⟨hr, lt_of_not_le hi, (Option.some.inj h).symm⟩

/-- CLAIM C2 (amended).  For every accepted row list with at least one
parseable timestamp, the resampled index starts at the minimum parsed
timestamp, is strictly increasing with consecutive entries exactly
`resample_interval_seconds` apart, and its last entry is the largest grid
point `min + ⌊(max − min)/interval⌋·interval ≤ max`; the maximum parsed
timestamp itself belongs to the grid **iff** `max − min` is a natural
multiple of the interval (so the right endpoint is not always included,
contrary to the claim — see the counterexample). -/
theorem resampled_index_uniform_grid (rows : List Row) (i : ℚ) (ts : NormalizedTS)
    (h : normalizeRows rows i = some ts) (hne : parsedTimestamps rows ≠ []) :
    ts.index.head? = some (listMin (parsedTimestamps rows))
    ∧ List.Sorted (· < ·) ts.index
    ∧ (∀ k, k + 1 < ts.index.length →
        ts.index.getD (k + 1) 0 - ts.index.getD k 0 = i)
    ∧ ts.index.getLast? = some (listMin (parsedTimestamps rows)
        + (⌊(listMax (parsedTimestamps rows) - listMin (parsedTimestamps rows)) / i⌋ : ℚ)
          * i)
    ∧ (∀ x ∈ ts.index, x ≤ listMax (parsedTimestamps rows))
    ∧ (listMax (parsedTimestamps rows) ∈ ts.index
        ↔ ∃ k : ℕ,
            listMax (parsedTimestamps rows) - listMin (parsedTimestamps rows)
              = (k : ℚ) * i) := by
  obtain ⟨hr, hi, hts⟩ := normalizeRows_eq h
  have hrne := rawIndex_ne_nil hne
  have hidx : ts.index = resampleIndex (rawIndex rows) i := by rw [hts]
  rw [resampleIndex, if_neg hrne, listMin_rawIndex hne, listMax_rawIndex hne] at hidx
  have hminmax : listMin (parsedTimestamps rows) ≤ listMax (parsedTimestamps rows) :=
    listMin_le _ (listMax_mem hne)
  rw [hidx]
  exact ⟨dateRange_head _ _ _ hminmax hi,
    dateRange_sorted _ _ _ hminmax hi,
    fun k hk => dateRange_spacing _ _ _ hminmax hi k hk,
    dateRange_getLast _ _ _ hminmax hi,
    dateRange_le_stop _ _ _ hminmax hi,
    dateRange_stop_mem_iff _ _ _ hminmax hi⟩

/-- Witness for `resampled_index_uniform_grid`: rows at 0 s and 3 s,
interval 1 s. -/
theorem resampled_index_uniform_grid_witness :
    ∃ ts : NormalizedTS, normalizeRows c2WitnessRows 1 = some ts
      ∧ ts.index.head? = some (listMin (parsedTimestamps c2WitnessRows))
      ∧ List.Sorted (· < ·) ts.index
      ∧ (∀ x ∈ ts.index, x ≤ listMax (parsedTimestamps c2WitnessRows)) := by
  have hsome : normalizeRows c2WitnessRows 1 = some
      { index := resampleIndex (rawIndex c2WitnessRows) 1
        dtcCodes := extractDtcCodes c2WitnessRows
        resampleIntervalSeconds := 1
        originalSampleCount := (rawIndex c2WitnessRows).length } := by
    rw [normalizeRows, if_neg (by simp [c2WitnessRows]), if_neg (by norm_num)]
  have hne : parsedTimestamps c2WitnessRows ≠ [] := by
    simp [parsedTimestamps, c2WitnessRows]
  have hmain := resampled_index_uniform_grid c2WitnessRows 1 _ hsome hne
  exact ⟨_, hsome, hmain.1, hmain.2.1, hmain.2.2.2.2.1⟩

/-- CLAIM C2 counterexample: rows at 0 s and 3 s resampled at 2 s give the
index `[0, 2]` — the maximum parsed timestamp 3 s is *not* an element of
the grid, so the index does not end at the maximum timestamp. -/
theorem resampled_index_endpoint_counterexample :
    (normalizeRows [{ timestamp := some 3 }, { timestamp := some 0 }] 2).map
        NormalizedTS.index = some [0, 2]
    ∧ listMax (parsedTimestamps [{ timestamp := some 3 }, { timestamp := some 0 }]) = 3
    ∧ (3 : ℚ) ∉ [(0 : ℚ), 2] := by
  have hpts : parsedTimestamps
      [({ timestamp := some 3 } : Row), { timestamp := some 0 }] = [3, 0] := by
    simp [parsedTimestamps]
  have hraw : rawIndex [({ timestamp := some 3 } : Row), { timestamp := some 0 }]
      = [0, 3] := by
    rw [rawIndex, hpts]
    norm_num [dedupFirst, dedupFirstFrom, List.insertionSort, List.orderedInsert]
  have hdr : dateRange 0 3 2 = [0, 2] := by
    rw [dateRange_eq 0 3 2 (by norm_num) (by norm_num)]
    have hfl : ⌊((3 : ℚ) - 0) / 2⌋ = 1 := by norm_num
    rw [hfl]
    norm_num [List.range_succ]
  have hres : resampleIndex (rawIndex
      [({ timestamp := some 3 } : Row), { timestamp := some 0 }]) 2 = [0, 2] := by
    rw [hraw, resampleIndex, if_neg (by simp)]
    have hmin : listMin [(0 : ℚ), 3] = 0 := by norm_num [listMin]
    have hmax : listMax [(0 : ℚ), 3] = 3 := by norm_num [listMax]
    rw [hmin, hmax, hdr]
  refine ⟨?_, ?_, by norm_num⟩
  · rw [normalizeRows, if_neg (by simp), if_neg (by norm_num)]
    exact congrArg some hres
  · rw [hpts]
    norm_num [listMax]

/-- CLAIM C3 (amended).  `original_sample_count` is `len(raw_df)` taken
*after* `_rows_to_raw_dataframe` has merged rows sharing a timestamp, so it
equals the number of **distinct** parsed timestamps, not the raw pre-merge
row count claimed. -/
theorem original_sample_count_counts_distinct_timestamps
    (rows : List Row) (i : ℚ) (ts : NormalizedTS)
    (h : normalizeRows rows i = some ts) :
    ts.originalSampleCount = (dedupFirst (parsedTimestamps rows)).length := by
  obtain ⟨-, -, hts⟩ := normalizeRows_eq h
  have hcount : ts.originalSampleCount = (rawIndex rows).length := by rw [hts]
  rw [hcount, rawIndex, List.length_insertionSort]

/-- Witness for `original_sample_count_counts_distinct_timestamps`:
three rows, two sharing the timestamp 5 s. -/
theorem original_sample_count_counts_distinct_timestamps_witness :
    ∃ ts : NormalizedTS,
      normalizeRows
        [{ timestamp := some 5 }, { timestamp := some 5 }, { timestamp := some 7 }]
        1 = some ts
      ∧ ts.originalSampleCount
          = (dedupFirst (parsedTimestamps
              [{ timestamp := some 5 }, { timestamp := some 5 },
                { timestamp := some 7 }])).length := by
  have hsome : normalizeRows
      [({ timestamp := some 5 } : Row), { timestamp := some 5 },
        { timestamp := some 7 }] 1 = some
      { index := resampleIndex (rawIndex
          [{ timestamp := some 5 }, { timestamp := some 5 },
            { timestamp := some 7 }]) 1
        dtcCodes := extractDtcCodes
          [{ timestamp := some 5 }, { timestamp := some 5 },
            { timestamp := some 7 }]
        resampleIntervalSeconds := 1
        originalSampleCount := (rawIndex
          [{ timestamp := some 5 }, { timestamp := some 5 },
            { timestamp := some 7 }]).length } := by
    rw [normalizeRows, if_neg (by simp), if_neg (by norm_num)]
  exact ⟨_, hsome,
    original_sample_count_counts_distinct_timestamps _ 1 _ hsome⟩

/-- CLAIM C3 counterexample: two raw rows share the timestamp 0 s; the
claim predicts `original_sample_count = 2` (pre-merge row count), but the
code stores `len(raw_df) = 1` (post-merge). -/
theorem original_sample_count_counterexample :
    (normalizeRows [{ timestamp := some 0 }, { timestamp := some 0 }] 1).map
        NormalizedTS.originalSampleCount = some 1
    ∧ (parsedTimestamps
        [{ timestamp := some 0 }, { timestamp := some 0 }]).length = 2 := by
  have hpts : parsedTimestamps
      [({ timestamp := some 0 } : Row), { timestamp := some 0 }] = [0, 0] := by
    simp [parsedTimestamps]
  have hraw : rawIndex [({ timestamp := some 0 } : Row), { timestamp := some 0 }]
      = [0] := by
    rw [rawIndex, hpts]
    norm_num [dedupFirst, dedupFirstFrom, List.insertionSort, List.orderedInsert]
  refine ⟨?_, by rw [hpts]; exact rfl⟩
  rw [normalizeRows, if_neg (by simp), if_neg (by norm_num)]
  exact congrArg some (by rw [hraw]; exact rfl)

/-! ### Rounding lemmas (`round(x, 4)`) -/

theorem rhe_intCast (z : ℤ) : rhe (z : ℚ) = z := by
  simp only [rhe, Int.floor_intCast]
  rw [if_pos (by norm_num)]

theorem rhe_lb (x : ℚ) : ⌊x⌋ ≤ rhe x := by
  unfold rhe
  split_ifs <;> omega

theorem rhe_ub (x : ℚ) : rhe x ≤ ⌊x⌋ + 1 := by
  unfold rhe
  split_ifs <;> omega

theorem rhe_mono {x y : ℚ} (hxy : x ≤ y) : rhe x ≤ rhe y := by
  have hfl : ⌊x⌋ ≤ ⌊y⌋ := Int.floor_le_floor hxy
  by_cases hf : ⌊x⌋ = ⌊y⌋
  · unfold rhe
    rw [hf]
    split_ifs <;> first | omega | linarith
  · have hlt : ⌊x⌋ < ⌊y⌋ := lt_of_le_of_ne hfl hf
    have h1 := rhe_ub x
    have h2 := rhe_lb y
    omega

theorem r4_idem (x : ℚ) : r4 (r4 x) = r4 x := by
  rw [r4, r4]
  have h : ((rhe (x * 10000) : ℚ) / 10000) * 10000 = ((rhe (x * 10000) : ℤ) : ℚ) :=
    div_mul_cancel₀ _ (by norm_num)
  rw [h, rhe_intCast]

theorem r4_mono {x y : ℚ} (h : x ≤ y) : r4 x ≤ r4 y := by
  rw [r4, r4]
  have hm := rhe_mono (mul_le_mul_of_nonneg_right h (by norm_num : (0:ℚ) ≤ 10000))
  have hc : ((rhe (x * 10000) : ℤ) : ℚ) ≤ ((rhe (y * 10000) : ℤ) : ℚ) := by
    exact_mod_cast hm
  linarith

/-! ### Percentile monotonicity -/

theorem sorted_getD_mono {s : List ℚ} (hs : List.Sorted (· ≤ ·) s) {i j : ℕ}
    (hij : i ≤ j) (hj : j < s.length) : s.getD i 0 ≤ s.getD j 0 := by
  rcases eq_or_lt_of_le hij with rfl | hlt
  · exact le_refl _
  · rw [List.getD_eq_getElem _ _ (lt_trans hlt hj), List.getD_eq_getElem _ _ hj]
    exact List.pairwise_iff_getElem.1 hs i j (lt_trans hlt hj) hj hlt

theorem interpAt_mono {s : List ℚ} (hne : s ≠ []) (hs : List.Sorted (· ≤ ·) s)
    {h₁ h₂ : ℚ} (h0 : 0 ≤ h₁) (h12 : h₁ ≤ h₂) (hN : h₂ ≤ (s.length : ℚ) - 1) :
    interpAt s h₁ ≤ interpAt s h₂ := by
  have hlen : 1 ≤ s.length := List.length_pos.2 hne
  have h0' : 0 ≤ h₂ := le_trans h0 h12
  have hf1 : (0:ℤ) ≤ ⌊h₁⌋ := Int.floor_nonneg.2 h0
  have hf2 : (0:ℤ) ≤ ⌊h₂⌋ := Int.floor_nonneg.2 h0'
  have hff : ⌊h₁⌋ ≤ ⌊h₂⌋ := Int.floor_le_floor h12
  have hNlen : ⌊h₂⌋ ≤ (s.length : ℤ) - 1 := by
    have hq : (⌊h₂⌋ : ℚ) ≤ (s.length : ℚ) - 1 := le_trans (Int.floor_le h₂) hN
    exact_mod_cast hq
  have hlo₁c : ((⌊h₁⌋.toNat : ℕ) : ℚ) = (⌊h₁⌋ : ℚ) := by
    exact_mod_cast Int.toNat_of_nonneg hf1
  have hlo₂c : ((⌊h₂⌋.toNat : ℕ) : ℚ) = (⌊h₂⌋ : ℚ) := by
    exact_mod_cast Int.toNat_of_nonneg hf2
  have hlo12 : ⌊h₁⌋.toNat ≤ ⌊h₂⌋.toNat := by omega
  have hlo₂len : ⌊h₂⌋.toNat < s.length := by omega
  have hlo₁len : ⌊h₁⌋.toNat < s.length := by omega
  have hfrac1lo : 0 ≤ h₁ - ((⌊h₁⌋.toNat : ℕ) : ℚ) := by
    rw [hlo₁c]; linarith [Int.floor_le h₁]
  have hfrac1hi : h₁ - ((⌊h₁⌋.toNat : ℕ) : ℚ) ≤ 1 := by
    rw [hlo₁c]; linarith [Int.lt_floor_add_one h₁]
  have hfrac2lo : 0 ≤ h₂ - ((⌊h₂⌋.toNat : ℕ) : ℚ) := by
    rw [hlo₂c]; linarith [Int.floor_le h₂]
  unfold interpAt
  by_cases hcase : ⌊h₁⌋.toNat = ⌊h₂⌋.toNat
  · rw [hcase]
    have hkk : ⌊h₂⌋.toNat ≤ min (⌊h₂⌋.toNat + 1) (s.length - 1) := by omega
    have hk'len : min (⌊h₂⌋.toNat + 1) (s.length - 1) < s.length := by omega
    have hsk := sorted_getD_mono hs hkk hk'len
    nlinarith [hsk, h12]
  · have hlt : ⌊h₁⌋.toNat < ⌊h₂⌋.toNat := lt_of_le_of_ne hlo12 hcase
    have hhi₁le : min (⌊h₁⌋.toNat + 1) (s.length - 1) ≤ ⌊h₂⌋.toNat := by omega
    have hhi₁len : min (⌊h₁⌋.toNat + 1) (s.length - 1) < s.length := by omega
    have hhi₂len : min (⌊h₂⌋.toNat + 1) (s.length - 1) < s.length := by omega
    have hlo₁hi₁ : s.getD ⌊h₁⌋.toNat 0 ≤ s.getD (min (⌊h₁⌋.toNat + 1) (s.length - 1)) 0 :=
      sorted_getD_mono hs (by omega) hhi₁len
    have hlo₂hi₂ : s.getD ⌊h₂⌋.toNat 0 ≤ s.getD (min (⌊h₂⌋.toNat + 1) (s.length - 1)) 0 :=
      sorted_getD_mono hs (by omega) hhi₂len
    have hmid : s.getD (min (⌊h₁⌋.toNat + 1) (s.length - 1)) 0 ≤ s.getD ⌊h₂⌋.toNat 0 :=
      sorted_getD_mono hs hhi₁le hlo₂len
    nlinarith [hlo₁hi₁, hlo₂hi₂, hmid, hfrac1lo, hfrac1hi, hfrac2lo]

theorem percentile_mono {values : List ℚ} (hne : values ≠ []) {p₁ p₂ : ℚ}
    (h0 : 0 ≤ p₁) (h12 : p₁ ≤ p₂) (h100 : p₂ ≤ 100) :
    percentile values p₁ ≤ percentile values p₂ := by
  unfold percentile
  have hslen : (List.insertionSort (· ≤ ·) values).length = values.length :=
    List.length_insertionSort _ _
  have hsne : List.insertionSort (· ≤ ·) values ≠ [] := by
    intro hnil
    exact hne (List.length_eq_zero.1 (by rw [← hslen, hnil, List.length_nil]))
  have hn1 : (0 : ℚ) ≤ (values.length : ℚ) - 1 := by
    have h1 : 1 ≤ values.length := List.length_pos.2 hne
    have : (1 : ℚ) ≤ (values.length : ℚ) := by exact_mod_cast h1
    linarith
  refine interpAt_mono hsne (List.sorted_insertionSort _ _) ?_ ?_ ?_
  · positivity
  · have := mul_le_mul_of_nonneg_right h12 hn1
    linarith
  · rw [hslen]
    have hb : p₂ * ((values.length : ℚ) - 1) ≤ 100 * ((values.length : ℚ) - 1) :=
      mul_le_mul_of_nonneg_right h100 hn1
    linarith

/-- CLAIM C4: every `SignalStats` produced by `extract_statistics` from a
column with at least one non-null observation has `valid_count > 0`, every
non-`NaN` float field is a fixed point of rounding to 4 decimal places, and
the five percentiles are ordered `p5 ≤ p25 ≤ p50 ≤ p75 ≤ p95` (here they
are always non-`NaN`).  Holds for arbitrary float `sqrt` / `log2` oracles. -/
theorem signal_stats_invariants
    (sqrtA log2A : ℚ → ℚ) (cols : List (String × List (Option ℚ)))
    (name : String) (st : SignalStats)
    (hmem : (name, st) ∈ extractStatistics sqrtA log2A cols) :
    0 < st.validCount
    ∧ r4 st.mean = st.mean ∧ r4 st.std = st.std
    ∧ r4 st.min = st.min ∧ r4 st.max = st.max
    ∧ r4 st.p5 = st.p5 ∧ r4 st.p25 = st.p25 ∧ r4 st.p50 = st.p50
    ∧ r4 st.p75 = st.p75 ∧ r4 st.p95 = st.p95
    ∧ (∀ x, st.autocorrelationLag1 = some x → r4 x = x)
    ∧ (∀ x, st.meanAbsChange = some x → r4 x = x)
    ∧ (∀ x, st.maxAbsChange = some x → r4 x = x)
    ∧ r4 st.energy = st.energy
    ∧ (∀ x, st.entropy = some x → r4 x = x)
    ∧ st.p5 ≤ st.p25 ∧ st.p25 ≤ st.p50 ∧ st.p50 ≤ st.p75 ∧ st.p75 ≤ st.p95 := by
  obtain ⟨c, hc, hfc⟩ := List.mem_filterMap.1 hmem
  have hfc' : (if (dropNa c.2).length = 0 then none
      else some (c.1, computeSignalStats sqrtA log2A (dropNa c.2)))
        = some (name, st) := hfc
  by_cases hz : (dropNa c.2).length = 0
  · rw [if_pos hz] at hfc'; cases hfc'
  · rw [if_neg hz] at hfc'
    have hpair := Option.some.inj hfc'
    have hst : computeSignalStats sqrtA log2A (dropNa c.2) = st :=
      congrArg Prod.snd hpair
    subst hst
    have hne : dropNa c.2 ≠ [] := fun hnil => hz (by rw [hnil]; rfl)
    simp only [computeSignalStats]
    refine ⟨Nat.pos_of_ne_zero hz, r4_idem _, r4_idem _, r4_idem _, r4_idem _,
      r4_idem _, r4_idem _, r4_idem _, r4_idem _, r4_idem _, ?_, ?_, ?_,
      r4_idem _, ?_, ?_, ?_, ?_, ?_⟩
    · intro x hx
      obtain ⟨y, -, rfl⟩ := Option.map_eq_some'.1 hx
      exact r4_idem y
    · intro x hx
      split at hx
      · rw [← Option.some.inj hx]; exact r4_idem _
      · cases hx
    · intro x hx
      split at hx
      · rw [← Option.some.inj hx]; exact r4_idem _
      · cases hx
    · intro x hx
      obtain ⟨y, -, rfl⟩ := Option.map_eq_some'.1 hx
      exact r4_idem y
    · exact r4_mono (percentile_mono hne (by norm_num) (by norm_num) (by norm_num))
    · exact r4_mono (percentile_mono hne (by norm_num) (by norm_num) (by norm_num))
    · exact r4_mono (percentile_mono hne (by norm_num) (by norm_num) (by norm_num))
    · exact r4_mono (percentile_mono hne (by norm_num) (by norm_num) (by norm_num))

/-- Witness for `signal_stats_invariants` on the single-column input
`engine_rpm = [1]` with identity oracles. -/
theorem signal_stats_invariants_witness :
    0 < (computeSignalStats id id [1]).validCount
    ∧ (computeSignalStats id id [1]).p5 ≤ (computeSignalStats id id [1]).p25 := by
  have hmem : ("engine_rpm", computeSignalStats id id [1])
      ∈ extractStatistics id id [("engine_rpm", [some 1])] := by
    simp [extractStatistics, dropNa]
  have hmain := signal_stats_invariants id id [("engine_rpm", [some 1])]
    "engine_rpm" _ hmem
  exact ⟨hmain.1, hmain.2.2.2.2.2.2.2.2.2.2.2.2.2.2.2.1⟩

/-! ### C5: overlap merging -/

theorem dedupFirstFrom_append_dedupFirstFrom [DecidableEq α] (seen : List α)
    (a b : List α) :
    dedupFirstFrom seen (dedupFirstFrom seen a ++ b) = dedupFirstFrom seen (a ++ b) := by
  induction a generalizing seen with
  | nil => simp [dedupFirstFrom]
  | cons x xs ih =>
    by_cases h : x ∈ seen
    · rw [show dedupFirstFrom seen (x :: xs) = dedupFirstFrom seen xs from by
        rw [dedupFirstFrom, if_pos h]]
      rw [show (x :: xs) ++ b = x :: (xs ++ b) from rfl]
      rw [show dedupFirstFrom seen (x :: (xs ++ b)) = dedupFirstFrom seen (xs ++ b) from by
        rw [dedupFirstFrom, if_pos h]]
      exact ih seen
    · rw [show dedupFirstFrom seen (x :: xs)
          = x :: dedupFirstFrom (x :: seen) xs from by
        rw [dedupFirstFrom, if_neg h]]
      rw [show (x :: dedupFirstFrom (x :: seen) xs) ++ b
          = x :: (dedupFirstFrom (x :: seen) xs ++ b) from rfl]
      rw [show dedupFirstFrom seen (x :: (dedupFirstFrom (x :: seen) xs ++ b))
          = x :: dedupFirstFrom (x :: seen) (dedupFirstFrom (x :: seen) xs ++ b) from by
        rw [dedupFirstFrom, if_neg h]]
      rw [show (x :: xs) ++ b = x :: (xs ++ b) from rfl]
      rw [show dedupFirstFrom seen (x :: (xs ++ b))
          = x :: dedupFirstFrom (x :: seen) (xs ++ b) from by
        rw [dedupFirstFrom, if_neg h]]
      rw [ih (x :: seen)]

theorem dedupFirst_append_dedupFirst [DecidableEq α] (a b : List α) :
    dedupFirst (dedupFirst a ++ b) = dedupFirst (a ++ b) :=
  dedupFirstFrom_append_dedupFirstFrom [] a b

theorem dedupFirst_idem [DecidableEq α] (l : List α) :
    dedupFirst (dedupFirst l) = dedupFirst l := by
  have h := dedupFirst_append_dedupFirst l ([] : List α)
  simpa using h

theorem mergeTwo_wStart (a b : AnomalyEvent) :
    (mergeTwo a b).wStart = min a.wStart b.wStart := rfl

theorem mergeTwo_wEnd (a b : AnomalyEvent) :
    (mergeTwo a b).wEnd = max a.wEnd b.wEnd := rfl

theorem mergeTwo_signals (a b : AnomalyEvent) :
    (mergeTwo a b).signals = dedupFirst (a.signals ++ b.signals) := rfl

theorem mergeTwo_score (a b : AnomalyEvent) :
    (mergeTwo a b).score = (a.score + b.score) / 2 := rfl

theorem collapseGroup_wStart (g : List AnomalyEvent) (e : AnomalyEvent) :
    (collapseGroup e g).wStart = (g.map AnomalyEvent.wStart).foldl min e.wStart := by
  induction g generalizing e with
  | nil => rfl
  | cons n r ih =>
    rw [show collapseGroup e (n :: r) = collapseGroup (mergeTwo e n) r from rfl]
    rw [ih (mergeTwo e n), List.map_cons, List.foldl_cons, mergeTwo_wStart]

theorem collapseGroup_wEnd (g : List AnomalyEvent) (e : AnomalyEvent) :
    (collapseGroup e g).wEnd = (g.map AnomalyEvent.wEnd).foldl max e.wEnd := by
  induction g generalizing e with
  | nil => rfl
  | cons n r ih =>
    rw [show collapseGroup e (n :: r) = collapseGroup (mergeTwo e n) r from rfl]
    rw [ih (mergeTwo e n), List.map_cons, List.foldl_cons, mergeTwo_wEnd]

theorem collapseGroup_score (g : List AnomalyEvent) (e : AnomalyEvent) :
    (collapseGroup e g).score
      = (g.map AnomalyEvent.score).foldl (fun a b => (a + b) / 2) e.score := by
  induction g generalizing e with
  | nil => rfl
  | cons n r ih =>
    rw [show collapseGroup e (n :: r) = collapseGroup (mergeTwo e n) r from rfl]
    rw [ih (mergeTwo e n), List.map_cons, List.foldl_cons, mergeTwo_score]

theorem collapseGroup_signals (g : List AnomalyEvent) (e : AnomalyEvent)
    (he : dedupFirst e.signals = e.signals) :
    (collapseGroup e g).signals
      = dedupFirst (e.signals ++ g.flatMap AnomalyEvent.signals) := by
  induction g generalizing e with
  | nil =>
    rw [show collapseGroup e [] = e from rfl]
    rw [List.flatMap_nil, List.append_nil, he]
  | cons n r ih =>
    rw [show collapseGroup e (n :: r) = collapseGroup (mergeTwo e n) r from rfl]
    rw [ih (mergeTwo e n) (by rw [mergeTwo_signals]; exact dedupFirst_idem _)]
    rw [mergeTwo_signals, dedupFirst_append_dedupFirst, List.flatMap_cons,
      List.append_assoc]

theorem mergeLoop_chainAll (g : List AnomalyEvent) (e : AnomalyEvent)
    (h : ChainAll e g) : mergeLoop e g = [collapseGroup e g] := by
  induction g generalizing e with
  | nil => rfl
  | cons n r ih =>
    obtain ⟨h1, h2⟩ := h
    rw [show mergeLoop e (n :: r)
        = if n.wStart ≤ e.wEnd then mergeLoop (mergeTwo e n) r
          else e :: mergeLoop n r from rfl]
    rw [if_pos h1]
    exact ih (mergeTwo e n) h2

/-- CLAIM C5 (amended).  When the overlap-merge walk combines a
chain-overlapping group `e :: g`, the emitted event's window is the hull
(`start` = minimum of the group's starts, `end` = maximum of the ends) and
its signals are the first-seen-ordered union; its score, however, is the
left-nested iterated pairwise average
`foldl (a, b) ↦ (a+b)/2` over the group's scores — **not** the arithmetic
mean of all the scores, which the claim asserts (see the counterexample). -/
theorem merged_event_field_characterization (e : AnomalyEvent)
    (g : List AnomalyEvent) (hchain : ChainAll e g)
    (hded : dedupFirst e.signals = e.signals) :
    mergeLoop e g = [collapseGroup e g]
    ∧ (collapseGroup e g).wStart = (g.map AnomalyEvent.wStart).foldl min e.wStart
    ∧ (collapseGroup e g).wEnd = (g.map AnomalyEvent.wEnd).foldl max e.wEnd
    ∧ (∀ x ∈ e :: g,
        (collapseGroup e g).wStart ≤ x.wStart ∧ x.wEnd ≤ (collapseGroup e g).wEnd)
    ∧ (collapseGroup e g).signals
        = dedupFirst (e.signals ++ g.flatMap AnomalyEvent.signals)
    ∧ (collapseGroup e g).score
        = (g.map AnomalyEvent.score).foldl (fun a b => (a + b) / 2) e.score := by
  refine ⟨mergeLoop_chainAll g e hchain, collapseGroup_wStart g e,
    collapseGroup_wEnd g e, ?_, collapseGroup_signals g e hded,
    collapseGroup_score g e⟩
  intro x hx
  rw [collapseGroup_wStart g e, collapseGroup_wEnd g e]
  rcases List.mem_cons.1 hx with rfl | hx'
  · exact ⟨(foldl_min_le _ _).1, (foldl_max_ge _ _).1⟩
  · exact ⟨(foldl_min_le _ _).2 x.wStart (List.mem_map_of_mem _ hx'),
      (foldl_max_ge _ _).2 x.wEnd (List.mem_map_of_mem _ hx')⟩

/-- Witness for `merged_event_field_characterization` on a two-event group. -/
theorem merged_event_field_characterization_witness :
    mergeLoop (c5e 0) [c5e 1] = [collapseGroup (c5e 0) [c5e 1]]
    ∧ (collapseGroup (c5e 0) [c5e 1]).score = (0 + 1) / 2 := by
  have hchain : ChainAll (c5e 0) [c5e 1] := by
    refine ⟨?_, trivial⟩
    show (0 : ℚ) ≤ 10
    norm_num
  have hded : dedupFirst (c5e 0).signals = (c5e 0).signals := by decide
  have hmain := merged_event_field_characterization (c5e 0) [c5e 1] hchain hded
  refine ⟨hmain.1, ?_⟩
  rw [hmain.2.2.2.2.2]
  rfl

/-- CLAIM C5 counterexample: three fully-overlapping events with scores
0, 0, 1 merge into a single event whose score is ((0+0)/2 + 1)/2 = 1/2,
while the arithmetic mean of the group's scores is 1/3. -/
theorem merged_score_not_mean_counterexample :
    (mergeOverlappingEvents [c5e 0, c5e 0, c5e 1]).map AnomalyEvent.score = [1 / 2]
    ∧ ((1 : ℚ) / 2) ≠ (0 + 0 + 1) / 3 := by
  constructor
  · have hchain : ChainAll (c5e 0) [c5e 0, c5e 1] := by
      refine ⟨by norm_num [c5e], ?_, trivial⟩
      show (0 : ℚ) ≤ max 10 10
      norm_num
    have hsort : sortByStart [c5e 0, c5e 0, c5e 1] = [c5e 0, c5e 0, c5e 1] := by
      apply List.Sorted.insertionSort_eq
      refine List.Pairwise.cons ?_ (List.Pairwise.cons ?_ (List.pairwise_singleton _ _))
      · intro b hb
        rcases List.mem_cons.1 hb with rfl | hb'
        · exact le_refl _
        · rcases List.mem_cons.1 hb' with rfl | hb''
          · exact le_refl _
          · cases hb''
      · intro b hb
        rcases List.mem_cons.1 hb with rfl | hb'
        · exact le_refl _
        · cases hb'
    have hmerge : mergeOverlappingEvents [c5e 0, c5e 0, c5e 1]
        = mergeLoop (c5e 0) [c5e 0, c5e 1] := by
      rw [mergeOverlappingEvents, if_neg (by norm_num), hsort]
    rw [hmerge, mergeLoop_chainAll _ _ hchain, List.map_singleton, collapseGroup_score]
    norm_num [c5e]
  · norm_num

/-! ### C7: report invariants of `detect_anomalies` -/

theorem findRunsAux_bounds (rest : List Bool) (i : ℕ) (inRun : Option ℕ)
    (hin : ∀ s, inRun = some s → s < i) :
    ∀ p ∈ findRunsAux i inRun rest, p.1 ≤ p.2 ∧ p.2 < i + rest.length := by
  induction rest generalizing i inRun with
  | nil =>
    intro p hp
    cases inRun with
    | none => cases hp
    | some s =>
      have hs := hin s rfl
      rcases List.mem_cons.1 hp with rfl | hmem
      · constructor <;> simp <;> omega
      · cases hmem
  | cons b rest ih =>
    intro p hp
    cases inRun with
    | none =>
      cases b with
      | true =>
        have := ih (i + 1) (some i) (fun s hs => by cases hs; omega) p hp
        simpa [List.length_cons, Nat.add_assoc, Nat.add_comm, Nat.add_left_comm]
          using this
      | false =>
        have := ih (i + 1) none (fun s hs => by cases hs) p hp
        constructor
        · exact this.1
        · have h2 := this.2
          simp only [List.length_cons]
          omega
    | some s =>
      have hs := hin s rfl
      cases b with
      | true =>
        have := ih (i + 1) (some s) (fun s' hs' => by cases hs'; omega) p hp
        constructor
        · exact this.1
        · have h2 := this.2
          simp only [List.length_cons]
          omega
      | false =>
        rcases List.mem_cons.1 hp with rfl | hmem
        · constructor
          · simp; omega
          · simp only [List.length_cons]; omega
        · have := ih (i + 1) none (fun s' hs' => by cases hs') p hmem
          constructor
          · exact this.1
          · have h2 := this.2
            simp only [List.length_cons]
            omega

theorem findRuns_bounds (mask : List Bool) :
    ∀ p ∈ findRuns mask, p.1 ≤ p.2 ∧ p.2 < mask.length := by
  intro p hp
  have := findRunsAux_bounds mask 0 none (fun s hs => by cases hs) p hp
  simpa using this

theorem cpEventAt_ok {index : List ℚ} (hidx : List.Sorted (· ≤ ·) index)
    {minSegLen : ℕ} {ctxO : ℕ → ℕ → String} {colName : String}
    {filled : List ℚ} {range : ℚ} (hrange : 0 < range) {bp : ℕ}
    (hbp : bp < index.length) {ev : AnomalyEvent}
    (h : cpEventAt index minSegLen ctxO colName filled range bp = some ev) :
    EventOK ev := by
  rw [cpEventAt] at h
  split at h
  · cases h
  · rw [← Option.some.inj h]
    refine ⟨by simp, ?_, ?_, ?_⟩
    · exact le_min (by norm_num) (div_nonneg (abs_nonneg _) hrange.le)
    · exact min_le_left _ _
    · exact sorted_getD_mono hidx (by omega) (by omega)

theorem cpEventsFor_ok {index : List ℚ} (hidx : List.Sorted (· ≤ ·) index)
    (minSegLen : ℕ) (ctxO : ℕ → ℕ → String) (colName : String)
    (data : List (Option ℚ)) (bps : List ℕ) :
    ∀ ev ∈ cpEventsFor index minSegLen ctxO colName data bps, EventOK ev := by
  intro ev hev
  rw [cpEventsFor] at hev
  split at hev
  · cases hev
  · split at hev
    next hr => cases hev
    next hr =>
      obtain ⟨bp, hbp, hsome⟩ := List.mem_filterMap.1 hev
      have hbp' : bp < index.length := by
        have := List.of_mem_filter hbp
        exact of_decide_eq_true this
      have hrange : 0 < listMax (filledOf data) - listMin (filledOf data) := by
        rcases eq_or_ne (filledOf data) [] with hnil | hne
        · exact absurd (by rw [hnil]; simp [listMax, listMin]) hr
        · have hle : listMin (filledOf data) ≤ listMax (filledOf data) :=
            listMin_le _ (listMax_mem hne)
          rcases lt_or_eq_of_le hle with hlt | heq
          · linarith
          · exact absurd (by rw [← heq]; ring) hr
      exact cpEventAt_ok hidx hrange hbp' hsome

theorem detectChangepoints_ok {index : List ℚ} (hidx : List.Sorted (· ≤ ·) index)
    (cols : List (String × List (Option ℚ))) (minSegLen : ℕ)
    (bpO : String → List ℕ) (ctxO : ℕ → ℕ → String) :
    ∀ ev ∈ detectChangepoints index cols minSegLen bpO ctxO, EventOK ev := by
  intro ev hev
  rw [detectChangepoints] at hev
  split at hev
  · cases hev
  · obtain ⟨c, -, hc⟩ := List.mem_flatMap.1 hev
    exact cpEventsFor_ok hidx minSegLen ctxO c.1 c.2 (bpO c.1) ev hc

theorem ifEventAt_ok {index : List ℚ} (hidx : List.Sorted (· ≤ ·) index)
    {used : List (String × List (Option ℚ))} (hused : 2 ≤ used.length)
    (sqrtA : ℚ → ℚ) (dfnO : ℕ → ℕ → ℚ) (ctxO : ℕ → ℕ → String)
    {run : ℕ × ℕ} (hrun : run.1 ≤ run.2 ∧ run.2 < index.length) :
    EventOK (ifEventAt index used sqrtA dfnO ctxO run) := by
  refine ⟨?_, le_max_left _ _, max_le (by norm_num) (min_le_left _ _),
    sorted_getD_mono hidx hrun.1 hrun.2⟩
  rw [ifEventAt]
  simp only [topSignals]
  intro hnil
  have hlen := congrArg List.length hnil
  rw [List.length_map, List.length_take, List.length_insertionSort,
    List.length_map, List.length_nil] at hlen
  omega

theorem detectIsolationForest_ok {index : List ℚ} (hidx : List.Sorted (· ≤ ·) index)
    (cols : List (String × List (Option ℚ))) (sqrtA : ℚ → ℚ) {mask : List Bool}
    (hmask : mask.length = index.length) (dfnO : ℕ → ℕ → ℚ)
    (ctxO : ℕ → ℕ → String) :
    ∀ ev ∈ detectIsolationForest index cols sqrtA mask dfnO ctxO, EventOK ev := by
  intro ev hev
  rw [detectIsolationForest] at hev
  split at hev; · cases hev
  split at hev; · cases hev
  split at hev
  next hu => cases hev
  next hu =>
    split at hev; · cases hev
    obtain ⟨run, hrun, rfl⟩ := List.mem_map.1 hev
    have hb := findRuns_bounds mask run hrun
    exact ifEventAt_ok hidx (by omega) sqrtA dfnO ctxO ⟨hb.1, by omega⟩

theorem mergeTwo_ok {a b : AnomalyEvent} (ha : EventOK a) (hb : EventOK b) :
    EventOK (mergeTwo a b) := by
  obtain ⟨ha1, ha2, ha3, ha4⟩ := ha
  obtain ⟨hb1, hb2, hb3, hb4⟩ := hb
  refine ⟨?_, ?_, ?_, ?_⟩
  · rw [mergeTwo_signals]
    rcases List.exists_mem_of_ne_nil _ ha1 with ⟨x, hx⟩
    exact List.ne_nil_of_mem ((mem_dedupFirst _ x).2 (List.mem_append_left _ hx))
  · rw [mergeTwo_score]; linarith
  · rw [mergeTwo_score]; linarith
  · rw [mergeTwo_wStart, mergeTwo_wEnd]
    exact le_trans (min_le_left _ _) (le_trans ha4 (le_max_left _ _))

theorem mergeLoop_invariants (rest : List AnomalyEvent) (cur : AnomalyEvent)
    (h1 : EventOK cur) (h2 : ∀ e ∈ rest, EventOK e)
    (h3 : List.Pairwise (fun a b => a.wStart ≤ b.wStart) rest)
    (h4 : ∀ e ∈ rest, cur.wStart ≤ e.wStart) :
    (∀ e ∈ mergeLoop cur rest, EventOK e)
    ∧ List.Pairwise (fun a b : AnomalyEvent => a.wStart ≤ b.wStart)
        (mergeLoop cur rest)
    ∧ List.Pairwise (fun a b : AnomalyEvent => a.wEnd < b.wStart)
        (mergeLoop cur rest)
    ∧ ∀ e ∈ mergeLoop cur rest, cur.wStart ≤ e.wStart := by
  induction rest generalizing cur with
  | nil =>
    refine ⟨?_, ?_, ?_, ?_⟩
    · intro e he
      rw [List.mem_singleton.1 he]
      exact h1
    · exact List.pairwise_singleton _ _
    · exact List.pairwise_singleton _ _
    · intro e he
      rw [List.mem_singleton.1 he]
  | cons nxt rest ih =>
    have hnxt : EventOK nxt := h2 nxt (List.mem_cons_self _ _)
    have h2' : ∀ e ∈ rest, EventOK e := fun e he => h2 e (List.mem_cons_of_mem _ he)
    have h3' : List.Pairwise (fun a b => a.wStart ≤ b.wStart) rest :=
      (List.pairwise_cons.1 h3).2
    have h4head : ∀ e ∈ rest, nxt.wStart ≤ e.wStart := (List.pairwise_cons.1 h3).1
    rw [show mergeLoop cur (nxt :: rest)
        = if nxt.wStart ≤ cur.wEnd then mergeLoop (mergeTwo cur nxt) rest
          else cur :: mergeLoop nxt rest from rfl]
    split
    next hover =>
      have hmins : (mergeTwo cur nxt).wStart = cur.wStart := by
        rw [mergeTwo_wStart]
        exact min_eq_left (h4 nxt (List.mem_cons_self _ _))
      have h4new : ∀ e ∈ rest, (mergeTwo cur nxt).wStart ≤ e.wStart := by
        intro e he
        rw [hmins]
        exact le_trans (h4 nxt (List.mem_cons_self _ _)) (h4head e he)
      have hmain := ih (mergeTwo cur nxt) (mergeTwo_ok h1 hnxt) h2' h3' h4new
      refine ⟨hmain.1, hmain.2.1, hmain.2.2.1, ?_⟩
      intro e he
      have := hmain.2.2.2 e he
      rw [hmins] at this
      exact this
    next hover =>
      have hlt : cur.wEnd < nxt.wStart := lt_of_not_le hover
      have hmain := ih nxt hnxt h2' h3' h4head
      refine ⟨?_, ?_, ?_, ?_⟩
      · intro e he
        rcases List.mem_cons.1 he with rfl | he'
        · exact h1
        · exact hmain.1 e he'
      · exact List.pairwise_cons.2
          ⟨fun e he => le_trans (h4 nxt (List.mem_cons_self _ _)) (hmain.2.2.2 e he),
            hmain.2.1⟩
      · exact List.pairwise_cons.2
          ⟨fun e he => lt_of_lt_of_le hlt (hmain.2.2.2 e he), hmain.2.2.1⟩
      · intro e he
        rcases List.mem_cons.1 he with rfl | he'
        · exact le_refl _
        · exact le_trans (h4 nxt (List.mem_cons_self _ _)) (hmain.2.2.2 e he')

theorem mergeOverlapping_invariants (events : List AnomalyEvent)
    (h : ∀ e ∈ events, EventOK e) :
    (∀ e ∈ mergeOverlappingEvents events, EventOK e)
    ∧ List.Pairwise (fun a b : AnomalyEvent => a.wStart ≤ b.wStart)
        (mergeOverlappingEvents events)
    ∧ List.Pairwise (fun a b : AnomalyEvent => a.wEnd < b.wStart)
        (mergeOverlappingEvents events) := by
  by_cases hlen : events.length ≤ 1
  · rw [show mergeOverlappingEvents events = events from by
      rw [mergeOverlappingEvents, if_pos hlen]]
    cases events with
    | nil => exact ⟨fun e he => absurd he (by simp), List.Pairwise.nil,
        List.Pairwise.nil⟩
    | cons e es =>
      cases es with
      | nil => exact ⟨fun x hx => by rw [List.mem_singleton.1 hx]; exact h e (by simp),
          List.pairwise_singleton _ _, List.pairwise_singleton _ _⟩
      | cons f fs => exact absurd hlen (by simp [List.length_cons])
  · have hperm : (sortByStart events).Perm events := List.perm_insertionSort _ _
    have hsorted : List.Pairwise (fun a b : AnomalyEvent => a.wStart ≤ b.wStart)
        (sortByStart events) := List.sorted_insertionSort _ _
    rcases hs : sortByStart events with - | ⟨e, rest⟩
    · rw [show mergeOverlappingEvents events = [] from by
        rw [mergeOverlappingEvents, if_neg hlen, hs]]
      exact ⟨fun e he => absurd he (by simp), List.Pairwise.nil, List.Pairwise.nil⟩
    · rw [show mergeOverlappingEvents events = mergeLoop e rest from by
        rw [mergeOverlappingEvents, if_neg hlen, hs]]
      rw [hs] at hperm hsorted
      have hOK : ∀ x ∈ e :: rest, EventOK x := fun x hx => h x (hperm.mem_iff.1 hx)
      have hmain := mergeLoop_invariants rest e (hOK e (List.mem_cons_self _ _))
        (fun x hx => hOK x (List.mem_cons_of_mem _ hx))
        (List.pairwise_cons.1 hsorted).2 (List.pairwise_cons.1 hsorted).1
      exact ⟨hmain.1, hmain.2.1, hmain.2.2.1⟩

/-- CLAIM C7: every `AnomalyReport` returned by `detect_anomalies` (for any
values of the `ruptures` / `IsolationForest` oracles, a sorted index, and a
row-aligned outlier mask) has its events sorted ascending by window start,
pairwise non-overlapping (each window ends strictly before the next one
starts), with non-empty `signals` and `score ∈ [0, 1]` (and
`start ≤ end`). -/
theorem detect_anomalies_report_invariants
    (index : List ℚ) (cols : List (String × List (Option ℚ)))
    (dtcCodes : List String) (minSegLen : ℕ) (contamination : ℚ)
    (bpOracle : String → List ℕ) (maskOracle : List Bool)
    (dfnOracle : ℕ → ℕ → ℚ) (sqrtA : ℚ → ℚ) (ctxOracle : ℕ → ℕ → String)
    (report : AnomalyReport)
    (hidx : List.Sorted (· ≤ ·) index)
    (hmask : maskOracle.length = index.length)
    (h : detectAnomalies index cols dtcCodes minSegLen contamination bpOracle
      maskOracle dfnOracle sqrtA ctxOracle = some report) :
    List.Pairwise (fun a b : AnomalyEvent => a.wStart ≤ b.wStart) report.events
    ∧ List.Pairwise (fun a b : AnomalyEvent => a.wEnd < b.wStart) report.events
    ∧ ∀ e ∈ report.events,
        e.signals ≠ [] ∧ 0 ≤ e.score ∧ e.score ≤ 1 ∧ e.wStart ≤ e.wEnd := by
  simp only [detectAnomalies] at h
  split at h
  · cases h
  split at h
  · cases h
  split at h
  · rw [← Option.some.inj h]
    exact ⟨List.Pairwise.nil, List.Pairwise.nil, fun e he => absurd he (by simp)⟩
  split at h
  · rw [← Option.some.inj h]
    exact ⟨List.Pairwise.nil, List.Pairwise.nil, fun e he => absurd he (by simp)⟩
  · rw [← Option.some.inj h]
    have hallOK : ∀ ev ∈ detectChangepoints index (filterVariableColumns cols)
          minSegLen bpOracle ctxOracle
        ++ detectIsolationForest index (filterVariableColumns cols) sqrtA
          maskOracle dfnOracle ctxOracle, EventOK ev := by
      intro ev hev
      rcases List.mem_append.1 hev with hcp | hif
      · exact detectChangepoints_ok hidx _ minSegLen bpOracle ctxOracle ev hcp
      · exact detectIsolationForest_ok hidx _ sqrtA hmask dfnOracle ctxOracle ev hif
    have hmerged := mergeOverlapping_invariants _ hallOK
    have hsorteq : sortByStart (mergeOverlappingEvents
        (detectChangepoints index (filterVariableColumns cols) minSegLen bpOracle
          ctxOracle
        ++ detectIsolationForest index (filterVariableColumns cols) sqrtA
          maskOracle dfnOracle ctxOracle))
        = mergeOverlappingEvents
        (detectChangepoints index (filterVariableColumns cols) minSegLen bpOracle
          ctxOracle
        ++ detectIsolationForest index (filterVariableColumns cols) sqrtA
          maskOracle dfnOracle ctxOracle) :=
      List.Sorted.insertionSort_eq hmerged.2.1
    refine ⟨?_, ?_, ?_⟩
    · show List.Pairwise _ (sortByStart _)
      rw [hsorteq]
      exact hmerged.2.1
    · show List.Pairwise _ (sortByStart _)
      rw [hsorteq]
      exact hmerged.2.2
    · show ∀ e ∈ sortByStart _, _
      rw [hsorteq]
      exact hmerged.1

/-- Witness for `detect_anomalies_report_invariants` on an empty frame
(fewer than 20 rows gives the well-formed empty report). -/
theorem detect_anomalies_report_invariants_witness :
    ∃ report : AnomalyReport,
      detectAnomalies [] [] [] 10 (1/4) (fun _ => []) [] (fun _ _ => 0) id
        (fun _ _ => "unknown") = some report
      ∧ (∀ e ∈ report.events, e.signals ≠ [] ∧ 0 ≤ e.score ∧ e.score ≤ 1) := by
  have hsome : detectAnomalies [] [] [] 10 (1/4) (fun _ => []) [] (fun _ _ => 0) id
      (fun _ _ => "unknown") = some { events := [], dtcCodes := [] } := by
    rw [detectAnomalies]
    rw [if_neg (by norm_num), if_neg (by norm_num), if_pos (by simp)]
  refine ⟨_, hsome, ?_⟩
  have hmain := detect_anomalies_report_invariants [] [] [] 10 (1/4) (fun _ => [])
    [] (fun _ _ => 0) id (fun _ _ => "unknown") _ (by simp) rfl hsome
  exact fun e he => ⟨(hmain.2.2 e he).1, (hmain.2.2 e he).2.1, (hmain.2.2 e he).2.2.1⟩

/-! ### Clue-generator lemmas -/

/-- A matching `stat_check` condition contributes non-empty evidence. -/
theorem evalStatCheck_true_ne (s f o : String) (v : ℚ) (stats : SignalStatistics)
    (h : (evalStatCheck s f o v stats).1 = true) :
    (evalStatCheck s f o v stats).2 ≠ [] := by
  cases hs : statsLookup stats.stats s with
  | none => simp [evalStatCheck, hs] at h
  | some ss =>
    cases hf : SignalStats.getField ss f with
    | none => simp [evalStatCheck, hs, hf] at h
    | some ov =>
      cases ov with
      | none => simp [evalStatCheck, hs, hf] at h
      | some a =>
        cases ho : applyOp o a v with
        | none => simp [evalStatCheck, hs, hf, ho] at h
        | some m => simp [evalStatCheck, hs, hf, ho]

/-- A matching `anomaly_check` condition contributes non-empty evidence. -/
theorem evalAnomalyCheck_true_ne (sf cf vf : Option String) (mn mx : Option ℕ)
    (anomalies : AnomalyReport)
    (h : (evalAnomalyCheck sf cf vf mn mx anomalies).1 = true) :
    (evalAnomalyCheck sf cf vf mn mx anomalies).2.1 ≠ [] := by
  simp only [evalAnomalyCheck] at h ⊢
  rw [if_pos h]
  simp

/-- A matching `dtc_check` condition contributes non-empty evidence. -/
theorem evalDtcCheck_true_ne (mode : String) (code pfx : Option String)
    (dtcCodes : List String)
    (h : (evalDtcCheck mode code pfx dtcCodes).1 = true) :
    (evalDtcCheck mode code pfx dtcCodes).2.1 ≠ [] := by
  simp only [evalDtcCheck] at h ⊢
  split_ifs at h ⊢ <;> simp_all

/-- A matching `stat_compare` condition contributes non-empty evidence. -/
theorem evalStatCompare_true_ne (sa fa sb fb o : String) (rt : ℚ)
    (stats : SignalStatistics)
    (h : (evalStatCompare sa fa sb fb o rt stats).1 = true) :
    (evalStatCompare sa fa sb fb o rt stats).2 ≠ [] := by
  cases ha : statsLookup stats.stats sa with
  | none => simp [evalStatCompare, ha] at h
  | some ssa =>
    cases hb : statsLookup stats.stats sb with
    | none => simp [evalStatCompare, ha, hb] at h
    | some ssb =>
      cases hfa : SignalStats.getField ssa fa with
      | none => simp [evalStatCompare, ha, hb, hfa] at h
      | some ova =>
        cases hfb : SignalStats.getField ssb fb with
        | none => simp [evalStatCompare, ha, hb, hfa, hfb] at h
        | some ovb =>
          cases ova with
          | none => simp [evalStatCompare, ha, hb, hfa, hfb] at h
          | some va =>
            cases ovb with
            | none => simp [evalStatCompare, ha, hb, hfa, hfb] at h
            | some vb =>
              cases ho : applyOp o va (vb * rt) with
              | none => simp [evalStatCompare, ha, hb, hfa, hfb, ho] at h
              | some m => simp [evalStatCompare, ha, hb, hfa, hfb, ho]

/-- A `signal_exists` condition always contributes non-empty evidence. -/
theorem evalSignalExists_ne (s : String) (ex : Bool) (stats : SignalStatistics) :
    (evalSignalExists s ex stats).2 ≠ [] := by
  simp [evalSignalExists]

/-- The condition loop only appends to the accumulated evidence. -/
theorem evalConditions_extend (stats : SignalStatistics) (anomalies : AnomalyReport)
    (dtcCodes : List String) (conds : List Condition) :
    ∀ (ev0 : List String) (n0 : ℕ) (d0 : String) (ev : List String) (n : ℕ)
      (d : String),
      evalConditions stats anomalies dtcCodes conds (ev0, n0, d0) = some (ev, n, d) →
      ∃ t, ev = ev0 ++ t := by
  induction conds with
  | nil =>
    intro ev0 n0 d0 ev n d h
    simp only [evalConditions, Option.some.injEq, Prod.mk.injEq] at h
    exact ⟨[], by rw [← h.1, List.append_nil]⟩
  | cons c rest ih =>
    intro ev0 n0 d0 ev n d h
    cases c with
    | statCheck s f o v =>
      simp only [evalConditions] at h
      split at h
      · obtain ⟨t, ht⟩ := ih _ _ _ _ _ _ h
        exact ⟨(evalStatCheck s f o v stats).2 ++ t, by rw [ht, List.append_assoc]⟩
      · exact absurd h (by simp)
    | anomalyCheck sf cf vf mn mx =>
      simp only [evalConditions] at h
      split at h
      · obtain ⟨t, ht⟩ := ih _ _ _ _ _ _ h
        exact ⟨(evalAnomalyCheck sf cf vf mn mx anomalies).2.1 ++ t,
          by rw [ht, List.append_assoc]⟩
      · exact absurd h (by simp)
    | dtcCheck m cd pf =>
      simp only [evalConditions] at h
      split at h
      · obtain ⟨t, ht⟩ := ih _ _ _ _ _ _ h
        exact ⟨(evalDtcCheck m cd pf dtcCodes).2.1 ++ t,
          by rw [ht, List.append_assoc]⟩
      · exact absurd h (by simp)
    | statCompare sa fa sb fb o rt =>
      simp only [evalConditions] at h
      split at h
      · obtain ⟨t, ht⟩ := ih _ _ _ _ _ _ h
        exact ⟨(evalStatCompare sa fa sb fb o rt stats).2 ++ t,
          by rw [ht, List.append_assoc]⟩
      · exact absurd h (by simp)
    | signalExists s ex =>
      simp only [evalConditions] at h
      split at h
      · obtain ⟨t, ht⟩ := ih _ _ _ _ _ _ h
        exact ⟨(evalSignalExists s ex stats).2 ++ t, by rw [ht, List.append_assoc]⟩
      · exact absurd h (by simp)

/-- With at least one condition, a successful loop yields non-empty evidence. -/
theorem evalConditions_ne_nil (stats : SignalStatistics) (anomalies : AnomalyReport)
    (dtcCodes : List String) (c : Condition) (rest : List Condition) (n0 : ℕ)
    (d0 : String) (ev : List String) (n : ℕ) (d : String)
    (h : evalConditions stats anomalies dtcCodes (c :: rest) ([], n0, d0)
        = some (ev, n, d)) :
    ev ≠ [] := by
  cases c with
  | statCheck s f o v =>
    simp only [evalConditions] at h
    split at h
    · obtain ⟨t, ht⟩ := evalConditions_extend stats anomalies dtcCodes rest _ _ _ _ _ _ h
      rw [ht, List.nil_append]
      intro hh
      exact evalStatCheck_true_ne s f o v stats (by assumption)
        (List.append_eq_nil.mp hh).1
    · exact absurd h (by simp)
  | anomalyCheck sf cf vf mn mx =>
    simp only [evalConditions] at h
    split at h
    · obtain ⟨t, ht⟩ := evalConditions_extend stats anomalies dtcCodes rest _ _ _ _ _ _ h
      rw [ht, List.nil_append]
      intro hh
      exact evalAnomalyCheck_true_ne sf cf vf mn mx anomalies (by assumption)
        (List.append_eq_nil.mp hh).1
    · exact absurd h (by simp)
  | dtcCheck m cd pf =>
    simp only [evalConditions] at h
    split at h
    · obtain ⟨t, ht⟩ := evalConditions_extend stats anomalies dtcCodes rest _ _ _ _ _ _ h
      rw [ht, List.nil_append]
      intro hh
      exact evalDtcCheck_true_ne m cd pf dtcCodes (by assumption)
        (List.append_eq_nil.mp hh).1
    · exact absurd h (by simp)
  | statCompare sa fa sb fb o rt =>
    simp only [evalConditions] at h
    split at h
    · obtain ⟨t, ht⟩ := evalConditions_extend stats anomalies dtcCodes rest _ _ _ _ _ _ h
      rw [ht, List.nil_append]
      intro hh
      exact evalStatCompare_true_ne sa fa sb fb o rt stats (by assumption)
        (List.append_eq_nil.mp hh).1
    · exact absurd h (by simp)
  | signalExists s ex =>
    simp only [evalConditions] at h
    split at h
    · obtain ⟨t, ht⟩ := evalConditions_extend stats anomalies dtcCodes rest _ _ _ _ _ _ h
      rw [ht, List.nil_append]
      intro hh
      exact evalSignalExists_ne s ex stats (List.append_eq_nil.mp hh).1
    · exact absurd h (by simp)

/-- Inversion for `evaluateRule`: a produced clue carries the rule's id and
its evidence is the loop's accumulated evidence. -/
theorem evaluateRule_eq_some (r : Rule) (stats : SignalStatistics)
    (anomalies : AnomalyReport) (dtcCodes : List String) (c : DiagnosticClue)
    (h : evaluateRule r stats anomalies dtcCodes = some c) :
    c.ruleId = r.id ∧ ∃ n d,
      evalConditions stats anomalies dtcCodes r.conditions ([], 0, "")
        = some (c.evidence, n, d) := by
  cases he : evalConditions stats anomalies dtcCodes r.conditions ([], 0, "") with
  | none =>
    simp only [evaluateRule, he] at h
    exact Option.noConfusion h
  | some st =>
    obtain ⟨ev, n, d⟩ := st
    simp only [evaluateRule, he, Option.some.injEq] at h
    subst h
    exact ⟨rfl, n, d, rfl⟩

/-- Clue rule ids form a sublist of the rule-set ids (evaluation order). -/
theorem clues_ids_sublist (stats : SignalStatistics) (anomalies : AnomalyReport)
    (rules : List Rule) :
    List.Sublist
      ((rules.filterMap
          (fun r => evaluateRule r stats anomalies stats.dtcCodes)).map
        DiagnosticClue.ruleId)
      (rules.map Rule.id) := by
  induction rules with
  | nil => simp
  | cons r rest ih =>
    cases he : evaluateRule r stats anomalies stats.dtcCodes with
    | none =>
      simp only [List.filterMap_cons, he, List.map_cons]
      exact ih.cons r.id
    | some c =>
      simp only [List.filterMap_cons, he, List.map_cons]
      rw [(evaluateRule_eq_some r stats anomalies stats.dtcCodes c he).1]
      exact ih.cons₂ r.id

/-- C8: for validated rule sets, `generate_clues` returns a report with
`rules_matched = len(clues) ≤ rules_applied`, every clue's `rule_id` an id
of the rule set, every clue's evidence non-empty, and the clues in rule
evaluation order (their ids form a sublist of the rule ids). -/
theorem generate_clues_report_invariants (stats : SignalStatistics)
    (anomalies : AnomalyReport) (rules : List Rule)
    (hval : validateRules rules = true) :
    (generateClues stats anomalies rules).rulesMatched
        = (generateClues stats anomalies rules).clues.length
    ∧ (generateClues stats anomalies rules).clues.length
        ≤ (generateClues stats anomalies rules).rulesApplied
    ∧ (∀ c ∈ (generateClues stats anomalies rules).clues,
        c.ruleId ∈ rules.map Rule.id ∧ c.evidence ≠ [])
    ∧ List.Sublist
        ((generateClues stats anomalies rules).clues.map DiagnosticClue.ruleId)
        (rules.map Rule.id) := by
  refine ⟨rfl, List.length_filterMap_le _ _, ?_, clues_ids_sublist stats anomalies rules⟩
  intro c hc
  obtain ⟨r, hr, heval⟩ := List.mem_filterMap.mp hc
  obtain ⟨hid, n, d, hconds⟩ :=
    evaluateRule_eq_some r stats anomalies stats.dtcCodes c heval
  have hall : rules.all validateRule = true := by
    simp only [validateRules, Bool.and_eq_true] at hval
    exact hval.1
  have hv : validateRule r = true := List.all_eq_true.mp hall r hr
  have hne : r.conditions ≠ [] := by
    intro hc0
    simp [validateRule, hc0] at hv
  refine ⟨hid ▸ List.mem_map_of_mem Rule.id hr, ?_⟩
  cases hcs : r.conditions with
  | nil => exact absurd hcs hne
  | cons c0 cs =>
    rw [hcs] at hconds
    exact evalConditions_ne_nil stats anomalies stats.dtcCodes c0 cs 0 "" _ n d hconds

/-- C8 witness: a concrete validated one-rule set on empty data. -/
theorem generate_clues_report_invariants_witness :
    validateRules [c8Rule] = true
    ∧ ((generateClues ⟨[], []⟩ ⟨[], []⟩ [c8Rule]).rulesMatched
          = (generateClues ⟨[], []⟩ ⟨[], []⟩ [c8Rule]).clues.length
        ∧ (generateClues ⟨[], []⟩ ⟨[], []⟩ [c8Rule]).clues.length
            ≤ (generateClues ⟨[], []⟩ ⟨[], []⟩ [c8Rule]).rulesApplied
        ∧ (∀ c ∈ (generateClues ⟨[], []⟩ ⟨[], []⟩ [c8Rule]).clues,
            c.ruleId ∈ [c8Rule].map Rule.id ∧ c.evidence ≠ [])
        ∧ List.Sublist
            ((generateClues ⟨[], []⟩ ⟨[], []⟩ [c8Rule]).clues.map
              DiagnosticClue.ruleId)
            ([c8Rule].map Rule.id)) :=
  ⟨by decide,
    generate_clues_report_invariants ⟨[], []⟩ ⟨[], []⟩ [c8Rule] (by decide)⟩

/-- C9 counterexample: `c9Rule` matches (no DTCs) and its template
dereferences `engine_rpm.mean` with `engine_rpm` absent from the context;
the produced clue text is the rule's description fallback, not a rendering
with the literal `"N/A"`. -/
theorem missing_dotted_placeholder_counterexample :
    (generateClues ⟨[], []⟩ ⟨[], []⟩ [c9Rule]).clues.map DiagnosticClue.clue
      = ["fallback text"]
    ∧ "fallback text" ≠ "N/A" := by
  constructor
  · rfl
  · decide

/-- C9 (amended): rendering never prevents clue production; an undotted
placeholder whose key is missing from the template context renders as the
literal `"N/A"`; but a dotted placeholder whose base key is missing raises
`AttributeError`, which is caught and replaces the whole clue text with
`rule.get("description", rule["id"])`. -/
theorem template_missing_key_behavior :
    (∀ (ctx : TemplateContext) (k : String), ctxLookup ctx k = none →
        renderTemplate [TItem.ph k none] ctx = Except.ok "N/A")
    ∧ (∀ (r : Rule) (stats : SignalStatistics) (anomalies : AnomalyReport)
        (dtcCodes : List String) (st : List String × ℕ × String),
        evalConditions stats anomalies dtcCodes r.conditions ([], 0, "") = some st →
        ∃ c, evaluateRule r stats anomalies dtcCodes = some c ∧ c.ruleId = r.id)
    ∧ (∀ (r : Rule) (stats : SignalStatistics) (anomalies : AnomalyReport)
        (dtcCodes : List String) (ev : List String) (n : ℕ) (d k f : String),
        evalConditions stats anomalies dtcCodes r.conditions ([], 0, "")
            = some (ev, n, d) →
        r.template = [TItem.ph k (some f)] →
        ctxLookup ⟨stats.stats, n, d⟩ k = none →
        evaluateRule r stats anomalies dtcCodes = some
          { ruleId := r.id
            category := r.category
            clue := r.description.getD r.id
            evidence := ev
            severity := r.severity }) := by
  refine ⟨?_, ?_, ?_⟩
  · intro ctx k hlk
    simp only [renderTemplate, renderItem, hlk]
    rfl
  · intro r stats anomalies dtcCodes st hconds
    obtain ⟨ev, n, d⟩ := st
    simp only [evaluateRule, hconds]
    exact ⟨_, rfl, rfl⟩
  · intro r stats anomalies dtcCodes ev n d k f hconds htpl hlk
    have hrt : renderTemplate [TItem.ph k (some f)]
        ⟨stats.stats, n, d⟩ = Except.error () := by
      simp only [renderTemplate, renderItem, hlk]
    simp only [evaluateRule, hconds, htpl, hrt]

/-- C9 witness: the three amended behaviours at concrete inputs. -/
theorem template_missing_key_behavior_witness :
    renderTemplate [TItem.ph "engine_rpm" none] ⟨[], 0, ""⟩ = Except.ok "N/A"
    ∧ (∃ c, evaluateRule c9Rule ⟨[], []⟩ ⟨[], []⟩ [] = some c ∧ c.ruleId = c9Rule.id)
    ∧ evaluateRule c9Rule ⟨[], []⟩ ⟨[], []⟩ [] = some
        { ruleId := c9Rule.id
          category := c9Rule.category
          clue := c9Rule.description.getD c9Rule.id
          evidence := ["dtc_count=0"]
          severity := c9Rule.severity } :=
  ⟨template_missing_key_behavior.1 ⟨[], 0, ""⟩ "engine_rpm" (by decide),
    template_missing_key_behavior.2.1 c9Rule ⟨[], []⟩ ⟨[], []⟩ []
      (["dtc_count=0"], 0, "") (by decide),
    template_missing_key_behavior.2.2 c9Rule ⟨[], []⟩ ⟨[], []⟩ []
      ["dtc_count=0"] 0 "" "engine_rpm" "mean" (by decide) rfl (by decide)⟩

/-- C10: with an explicit rules list no validation runs: a rule whose
conditions list is empty always produces a clue, with empty evidence and
the rule's (unvalidated) severity. -/
theorem empty_conditions_rule_fires (stats : SignalStatistics)
    (anomalies : AnomalyReport) (rules : List Rule) (r : Rule)
    (hr : r ∈ rules) (hempty : r.conditions = []) :
    ∃ c ∈ (generateClues stats anomalies rules).clues,
      c.ruleId = r.id ∧ c.evidence = [] ∧ c.severity = r.severity := by
  obtain ⟨c, hc, hprops⟩ :
      ∃ c, evaluateRule r stats anomalies stats.dtcCodes = some c
        ∧ c.ruleId = r.id ∧ c.evidence = [] ∧ c.severity = r.severity := by
    simp only [evaluateRule, hempty, evalConditions]
    exact ⟨_, rfl, rfl, rfl, rfl⟩
  exact ⟨c, List.mem_filterMap.mpr ⟨r, hr, hc⟩, hprops⟩

/-- C10 witness: the invalid `c10Rule` fires on empty data. -/
theorem empty_conditions_rule_fires_witness :
    c10Rule ∈ [c10Rule] ∧ c10Rule.conditions = []
    ∧ ∃ c ∈ (generateClues ⟨[], []⟩ ⟨[], []⟩ [c10Rule]).clues,
        c.ruleId = c10Rule.id ∧ c.evidence = [] ∧ c.severity = c10Rule.severity :=
  ⟨List.mem_singleton.mpr rfl, rfl,
    empty_conditions_rule_fires ⟨[], []⟩ ⟨[], []⟩ [c10Rule] c10Rule
      (List.mem_singleton.mpr rfl) rfl⟩


end Obd
